import Mathlib

/-!
Verification development for the DynamoNodeSlides repository.

The definitions below are a shallow embedding of `dynamo/table.js`
(`DynamoTable` and its helper functions).  JavaScript values are modelled by
the inductive type `JSVal`; JavaScript objects are association lists in
property-insertion order, with assignment overwriting an existing key in
place and appending fresh keys, exactly as JS property assignment behaves for
ordinary (non index-like) string keys.  Attribute names occurring in the
claims are ordinary identifiers, so insertion order is also `for..in`
enumeration order.
-/

namespace DynamoNode

/-- Model of the JavaScript values that flow through the table module.
`jsSet` models the AWS DocumentClient `Set` wrapper (an object whose
`constructor.name` is `Set` and whose `values` property is an array). -/
inductive JSVal where
  | undef
  | null
  | bool (b : Bool)
  | num (n : Int)
  | str (s : String)
  | arr (vs : List JSVal)
  | obj (fields : List (String × JSVal))
  | jsSet (vs : List JSVal)

/-- JavaScript truthiness of a `JSVal`. -/
def truthy : JSVal → Bool
  | .undef => false
  | .null => false
  | .bool b => b
  | .num n => n != 0
  | .str s => s ≠ ""
  | .arr _ => true
  | .obj _ => true
  | .jsSet _ => true

/-- Embeds the JavaScript test `v.constructor === Array`. -/
def isArray : JSVal → Bool
  | .arr _ => true
  | _ => false

/-- A JavaScript object: fields in property-insertion order. -/
abbrev JObj := List (String × JSVal)

/-- Property read `o[k]`: a missing property reads as `undefined`. -/
def objGet : JObj → String → JSVal
  | [], _ => .undef
  | (k', v) :: rest, k => if k' = k then v else objGet rest k

/-- Property assignment `o[k] = v`: overwrites an existing key in place,
otherwise appends the new key at the end (JS insertion order). -/
def objSet : JObj → String → JSVal → JObj
  | [], k, v => [(k, v)]
  | (k', v') :: rest, k, v =>
    if k' = k then (k, v) :: rest else (k', v') :: objSet rest k v

/-- Property deletion `delete o[k]` (keys of a JS object are unique, so
removing every entry with the key is the same operation). -/
def objDelete : JObj → String → JObj
  | [], _ => []
  | (k', v) :: rest, k =>
    if k' = k then objDelete rest k else (k', v) :: objDelete rest k

/-- Embeds `o.hasOwnProperty(k)`. -/
def objHas : JObj → String → Bool
  | [], _ => false
  | (k', _) :: rest, k => k' = k || objHas rest k

/-- One element of a DynamoDB `KeySchema`: attribute name plus key type
(the strings `HASH` or `RANGE`). -/
structure KeySchemaElement where
  AttributeName : String
  KeyType : String
deriving DecidableEq, Repr

/-- A local or global secondary index description. -/
structure SecondaryIndex where
  IndexName : String
  KeySchema : List KeySchemaElement
deriving DecidableEq, Repr

/-- The slice of a `describeTable` result used by `DynamoTable`. -/
structure TableDesc where
  TableName : String
  KeySchema : List KeySchemaElement
  LocalSecondaryIndexes : Option (List SecondaryIndex) := none
  GlobalSecondaryIndexes : Option (List SecondaryIndex) := none
deriving DecidableEq, Repr

/-- The fields of a `DynamoTable` instance that the claims depend on
(`tableName`, `partitionKey`, `sortKey`, `tableDesc`). -/
structure DynamoTable where
  tableName : String
  partitionKey : String
  sortKey : Option String
  tableDesc : TableDesc
deriving DecidableEq, Repr

/-- Embeds the `DynamoTable` constructor (table.js lines 19-74): the
partition key is the `HASH` element of the key schema (`none` when absent,
where the JS would throw a `TypeError`), the sort key is the `RANGE`
element when one exists. -/
def DynamoTable.ofDesc (tableDesc : TableDesc) : Option DynamoTable :=
  match tableDesc.KeySchema.find? (fun k => k.KeyType == "HASH") with
  | none => none
  | some hashKey =>
    some
      { tableName := tableDesc.TableName
        partitionKey := hashKey.AttributeName
        sortKey :=
          (tableDesc.KeySchema.find? (fun k => k.KeyType == "RANGE")).map
            (·.AttributeName)
        tableDesc := tableDesc }

/-- Embeds `fitsParamsExactly` (table.js lines 149-157): every attribute of
the key schema must be truthy in the parameter object and must not be an
array. -/
def fitsParamsExactly (keyValueParameters : JObj)
    (keySchema : List KeySchemaElement) : Bool :=
  keySchema.all (fun key =>
    truthy (objGet keyValueParameters key.AttributeName)
      && !isArray (objGet keyValueParameters key.AttributeName))

/-- Result of the schema-selection portion of `DynamoTable.query`:
either a key schema (with the index name when a secondary index was chosen)
or the fallback to `scan`. -/
inductive QuerySelection where
  | scanFallback
  | schema (keySchema : List KeySchemaElement) (indexName : Option String)
deriving DecidableEq, Repr

/-- Embeds the index-selection portion of `DynamoTable.query`
(table.js lines 146-219).  Order of evaluation, exactly as the source:
exact primary fit; otherwise if the partition-key value is truthy the
primary schema is tentatively chosen and the local secondary indexes are
scanned for the first exact fit; when no local index matched, the global
secondary indexes are scanned for the first exact fit (overwriting any
tentative choice), then — only when nothing has been chosen at all — for
the first whose partition-key value is truthy; when nothing matched the
query falls back to a scan. -/
def DynamoTable.querySelectSchema (t : DynamoTable)
    (keyValueParameters : JObj) : QuerySelection :=
  if fitsParamsExactly keyValueParameters t.tableDesc.KeySchema then
    .schema t.tableDesc.KeySchema none
  else
    let partitionKeyValue := objGet keyValueParameters t.partitionKey
    let lsiFound :=
      if truthy partitionKeyValue then
        match t.tableDesc.LocalSecondaryIndexes with
        | some lsis =>
          lsis.find? (fun (index : SecondaryIndex) => fitsParamsExactly keyValueParameters index.KeySchema)
        | none => none
      else none
    match lsiFound with
    | some index => .schema index.KeySchema (some index.IndexName)
    | none =>
      let gsiExact :=
        match t.tableDesc.GlobalSecondaryIndexes with
        | some gsis =>
          gsis.find? (fun (index : SecondaryIndex) => fitsParamsExactly keyValueParameters index.KeySchema)
        | none => none
      match gsiExact with
      | some index => .schema index.KeySchema (some index.IndexName)
      | none =>
        -- the tentative primary choice survives to this point whenever the
        -- partition-key value was truthy
        if truthy partitionKeyValue then
          .schema t.tableDesc.KeySchema none
        else
          let gsiWithPk :=
            match t.tableDesc.GlobalSecondaryIndexes with
            | some gsis =>
              gsis.find? (fun (index : SecondaryIndex) =>
                match index.KeySchema.find? (fun (k : KeySchemaElement) => k.KeyType == "HASH") with
                | some pk => truthy (objGet keyValueParameters pk.AttributeName)
                | none => false)
            | none => none
          match gsiWithPk with
          | some index => .schema index.KeySchema (some index.IndexName)
          | none => .scanFallback

/-- Decimal digits of a natural number, most significant first; the first
argument is fuel (structural, so that the kernel can evaluate it), always
called with fuel greater than the number. -/
def toDecimalDigits : Nat → Nat → List Char
  | 0, _ => []
  | fuel + 1, n =>
    if n < 10 then [Nat.digitChar n]
    else toDecimalDigits fuel (n / 10) ++ [Nat.digitChar (n % 10)]

/-- Decimal rendering of a natural number, as JavaScript template
interpolation `${index}` renders an array index. -/
def natToDecimal (n : Nat) : String :=
  String.mk (toDecimalDigits (n + 1) n)

/-- Splits a character list on `.`, like `String.prototype.split('.')`:
`splitDots "a.b".data = [['a'],['b']]`, with empty pieces kept. -/
def splitDots : List Char → List (List Char)
  | [] => [[]]
  | c :: cs =>
    match splitDots cs with
    | [] => [[]]
    | piece :: pieces =>
      if c = '.' then [] :: piece :: pieces else (c :: piece) :: pieces

/-- Joins strings with `_`, like `Array.prototype.join('_')`. -/
def joinUnderscore : List String → String
  | [] => ""
  | [s] => s
  | s :: rest => s ++ "_" ++ joinUnderscore rest

/-- Joins strings with `.`, like `Array.prototype.join('.')`. -/
def joinDot : List String → String
  | [] => ""
  | [s] => s
  | s :: rest => s ++ "." ++ joinDot rest

/-- Joins strings with `,`, like `Array.prototype.join(',')`. -/
def joinComma : List String → String
  | [] => ""
  | [s] => s
  | s :: rest => s ++ "," ++ joinComma rest

/-- Embeds the recurring idiom `` `...`.split('.').join('_') `` of
`buildFilterExpression`. -/
def sanitizeDots (s : String) : String :=
  joinUnderscore ((splitDots s.data).map String.mk)

/-- The splitting of an attribute path into its `.`-separated parts
(`key.split('.')` in the source). -/
def keyParts (key : String) : List String :=
  (splitDots key.data).map String.mk

/-- The mutable state shared by the expression builders:
`names` and `values` are the `ExpressionAttributeNames` /
`ExpressionAttributeValues` objects handed in by `query` and `scan`.
`nameLog` and `valueLog` are ghost fields recording, in order, every
assignment performed on the two objects during the build (the object fields
keep only the last write for a key, the logs keep them all). -/
structure ExprMaps where
  names : List (String × String)
  values : List (String × JSVal)
  nameLog : List (String × String)
  valueLog : List (String × JSVal)

/-- The empty pair of expression-attribute objects (`{}` / `{}`). -/
def ExprMaps.empty : ExprMaps := ⟨[], [], [], []⟩

/-- Assignment on a string-valued association object, same semantics as
`objSet`. -/
def nameMapSet : List (String × String) → String → String → List (String × String)
  | [], k, v => [(k, v)]
  | (k', v') :: rest, k, v =>
    if k' = k then (k, v) :: rest else (k', v') :: nameMapSet rest k v

/-- Embeds `expressionAttributeNames[placeholder] = part`. -/
def assignName (m : ExprMaps) (placeholder part : String) : ExprMaps :=
  { m with
    names := nameMapSet m.names placeholder part
    nameLog := m.nameLog ++ [(placeholder, part)] }

/-- Embeds `expressionAttributeValues[placeholder] = value`. -/
def assignValue (m : ExprMaps) (placeholder : String) (value : JSVal) : ExprMaps :=
  { m with
    values := objSet m.values placeholder value
    valueLog := m.valueLog ++ [(placeholder, value)] }

/-- The running state of one `buildFilterExpression` call: the expression
string built so far and the attribute maps. -/
structure BuildState where
  expression : String
  maps : ExprMaps

/-- Errors thrown synchronously by `buildKeyConditionExpression`
(table.js lines 438-440 and 452-455). -/
inductive BuildErr where
  | invalidKeySchema
  | missingPartitionKey (name : String)
deriving DecidableEq, Repr

/-- Embeds the `keyParts.forEach((part, index) => ...)` loop of
`buildKeyPlaceholder` (table.js lines 497-503): one name placeholder per
path segment, returned in order. -/
def keyPartsLoop (dotlessKey : String) :
    List String → Nat → ExprMaps → List String × ExprMaps
  | [], _, m => ([], m)
  | part :: rest, index, m =>
    let partPlaceholder := "#" ++ dotlessKey ++ natToDecimal index
    let m := assignName m partPlaceholder part
    let r := keyPartsLoop dotlessKey rest (index + 1) m
    (partPlaceholder :: r.1, r.2)

/-- Embeds `buildKeyPlaceholder` (table.js lines 491-506): splits the
attribute path on `.`, aliases each segment, and re-joins the segment
placeholders with `.`. -/
def buildKeyPlaceholder (key : String) (m : ExprMaps) : String × ExprMaps :=
  let parts := keyParts key
  let dotlessKey := joinUnderscore parts
  let r := keyPartsLoop dotlessKey parts 0 m
  (joinDot r.1, r.2)

/-- Embeds `addSearchTermToExpression` (table.js lines 508-513):
an equality clause for a scalar search term. -/
def addSearchTermToExpression (key : String) (value : JSVal)
    (st : BuildState) : BuildState :=
  let valuePlaceholder := sanitizeDots (":" ++ key)
  let m := assignValue st.maps valuePlaceholder value
  let r := buildKeyPlaceholder key m
  { expression := st.expression ++ r.1 ++ " = " ++ valuePlaceholder
    maps := r.2 }

/-- Embeds the `values.forEach((value, index) => ...)` loop of
`addInQueryToExpression` (table.js lines 518-524): one value placeholder
per list element, suffixed with the element index. -/
def inValuesLoop (key : String) :
    List JSVal → Nat → ExprMaps → List String × ExprMaps
  | [], _, m => ([], m)
  | value :: rest, index, m =>
    let placeholder := sanitizeDots (":" ++ key ++ natToDecimal index)
    let m := assignValue m placeholder value
    let r := inValuesLoop key rest (index + 1) m
    (placeholder :: r.1, r.2)

/-- Embeds `addInQueryToExpression` (table.js lines 515-527):
an `IN` clause for a list-valued search term. -/
def addInQueryToExpression (key : String) (values : List JSVal)
    (st : BuildState) : BuildState :=
  let kp := buildKeyPlaceholder key st.maps
  let r := inValuesLoop key values 0 kp.2
  { expression := st.expression ++ kp.1 ++ " IN ("
      ++ joinComma r.1 ++ ")"
    maps := r.2 }

/-- Embeds `addContainsQueryToExpression` (table.js lines 529-536). -/
def addContainsQueryToExpression (key : String) (value : JSVal)
    (st : BuildState) : BuildState :=
  let kp := buildKeyPlaceholder key st.maps
  let valuePlaceholder := sanitizeDots (":" ++ key)
  { expression := st.expression ++ "contains(" ++ kp.1 ++ ", "
      ++ valuePlaceholder ++ ")"
    maps := assignValue kp.2 valuePlaceholder value }

/-- Embeds `addBetweenQueryToExpression` (table.js lines 538-556).  The
bounds are `values[0]` and `values[1]` of the caller's two-element array;
the source tests them with `!values[0]` / `!values[1]`, i.e. JS falsiness,
not absence. -/
def addBetweenQueryToExpression (key : String) (low high : JSVal)
    (st : BuildState) : BuildState :=
  let kp := buildKeyPlaceholder key st.maps
  let p1 := sanitizeDots (":" ++ key ++ "1")
  if truthy low = false then
    { expression := st.expression ++ kp.1 ++ " <= " ++ p1
      maps := assignValue kp.2 p1 high }
  else if truthy high = false then
    { expression := st.expression ++ kp.1 ++ " >= " ++ p1
      maps := assignValue kp.2 p1 low }
  else
    let p2 := sanitizeDots (":" ++ key ++ "2")
    { expression := st.expression ++ kp.1 ++ " BETWEEN " ++ p1
        ++ " AND " ++ p2
      maps := assignValue (assignValue kp.2 p1 low) p2 high }

/-- Embeds the removal of the key attributes from a clone of the search
terms (table.js lines 482-487). -/
def removeKeyAttrs (keyValuePairs : JObj)
    (keySchema : List KeySchemaElement) : JObj :=
  keySchema.foldl (fun terms key => objDelete terms key.AttributeName)
    keyValuePairs

/-- Prepends `' AND '` when the expression already has content
(table.js lines 559-561 and the analogous checks in the two later loops). -/
def andSeparator (st : BuildState) : BuildState :=
  if st.expression.length > 0 then
    { st with expression := st.expression ++ " AND " }
  else st

/-- Elements of an array value (only read under the
`constructor === Array` guard, where the value is an array). -/
def arrValues : JSVal → List JSVal
  | .arr vs => vs
  | _ => []

/-- Embeds the `for (let key in searchTerms)` loop of
`buildFilterExpression` (table.js lines 558-567): an `IN` clause when
`searchTerms[key].constructor === Array`, an equality clause otherwise. -/
def searchTermsLoop : List (String × JSVal) → BuildState → BuildState
  | [], st => st
  | (key, v) :: rest, st =>
    let st := andSeparator st
    let st :=
      if isArray v then addInQueryToExpression key (arrValues v) st
      else addSearchTermToExpression key v st
    searchTermsLoop rest st

/-- Embeds the `for (let key in containsQuery)` loop
(table.js lines 569-576). -/
def containsQueryLoop : List (String × JSVal) → BuildState → BuildState
  | [], st => st
  | (key, v) :: rest, st =>
    containsQueryLoop rest (addContainsQueryToExpression key v (andSeparator st))

/-- Embeds the `for (let key in betweenQuery)` loop
(table.js lines 578-585); each entry carries the two bounds. -/
def betweenQueryLoop : List (String × JSVal × JSVal) → BuildState → BuildState
  | [], st => st
  | (key, low, high) :: rest, st =>
    betweenQueryLoop rest
      (addBetweenQueryToExpression key low high (andSeparator st))

/-- Embeds `buildFilterExpression` (table.js lines 480-588): removes the
key attributes from the search terms, renders equality or `IN` clauses for
the remaining entries, then `contains` clauses, then range clauses, and
returns `undefined` (here `none`) for an empty expression. -/
def buildFilterExpression (keySchema : List KeySchemaElement)
    (keyValuePairs : JObj) (containsQuery : Option (List (String × JSVal)))
    (betweenQuery : Option (List (String × JSVal × JSVal)))
    (m : ExprMaps) : Option String × ExprMaps :=
  let searchTerms := removeKeyAttrs keyValuePairs keySchema
  let st := searchTermsLoop searchTerms { expression := "", maps := m }
  let st :=
    match containsQuery with
    | some cq => containsQueryLoop cq st
    | none => st
  let st :=
    match betweenQuery with
    | some bq => betweenQueryLoop bq st
    | none => st
  (if st.expression.length > 0 then some st.expression else none, st.maps)

/-- Embeds `addKeyToExpression` inside `buildKeyConditionExpression`
(table.js lines 442-450): appends `#attr = :attr` and binds both
placeholders to the real attribute name and value. -/
def addKeyToExpression (key : KeySchemaElement) (keyValuePairs : JObj)
    (expression : String) (m : ExprMaps) : String × ExprMaps :=
  let keyPlaceholder := "#" ++ key.AttributeName
  let valuePlaceholder := ":" ++ key.AttributeName
  let expression := expression ++ keyPlaceholder ++ " = " ++ valuePlaceholder
  let m := assignName m keyPlaceholder key.AttributeName
  let m := assignValue m valuePlaceholder (objGet keyValuePairs key.AttributeName)
  (expression, m)

/-- Embeds `buildKeyConditionExpression` (table.js lines 434-468):
requires a `HASH` element in the schema and a truthy value for it, emits
the partition equality clause, and appends the sort equality clause when
the schema has a `RANGE` element with a truthy value. -/
def buildKeyConditionExpression (keySchema : List KeySchemaElement)
    (keyValuePairs : JObj) (m : ExprMaps) :
    Except BuildErr (String × ExprMaps) :=
  match keySchema.find? (fun (key : KeySchemaElement) => key.KeyType == "HASH") with
  | none => .error .invalidKeySchema
  | some partitionKey =>
    if truthy (objGet keyValuePairs partitionKey.AttributeName) then
      let r := addKeyToExpression partitionKey keyValuePairs "" m
      match keySchema.find? (fun (key : KeySchemaElement) => key.KeyType == "RANGE") with
      | some sortKey =>
        if truthy (objGet keyValuePairs sortKey.AttributeName) then
          .ok (addKeyToExpression sortKey keyValuePairs (r.1 ++ " AND ") r.2)
        else
          .ok r
      | none => .ok r
    else
      .error (.missingPartitionKey partitionKey.AttributeName)

/-- Embeds `DynamoTable.buildKeyParameters` (table.js lines 382-392).
`params.Key[this.partitionKey] = partitionKey; params.Key[this.sortKey] =
sortKey;` — when `this.sortKey` is `null`, the JS property key is the
string `"null"`, and assigning `undefined` still creates the property. -/
def DynamoTable.buildKeyParameters (t : DynamoTable)
    (partitionKey sortKey : JSVal) : JObj :=
  let keyObj := objSet ([] : JObj) t.partitionKey partitionKey
  objSet keyObj
    (match t.sortKey with
     | some s => s
     | none => "null")
    sortKey

/-- Embeds `DynamoTable.getItem` / `DynamoTable.deleteItem` key
construction (table.js lines 82-84 and 92-93): both pass their two
arguments straight to `buildKeyParameters`. -/
def DynamoTable.itemKeyObject (t : DynamoTable)
    (partitionKey sortKey : JSVal) : JObj :=
  t.buildKeyParameters partitionKey sortKey

/-- Embeds the in-place rewrite at the top of `DynamoTable.scan`
(table.js lines 304-308): when the table has a sort key whose value in the
caller's filter object is a (truthy) array, the value is re-added under
`<sortKey>_filterable` and the sort-key entry is deleted — on the caller's
own object, so this is the state of that object after `scan` returns. -/
def DynamoTable.scanFilterSetAfter (t : DynamoTable)
    (keyValueParameters : JObj) : JObj :=
  match t.sortKey with
  | some sk =>
    let v := objGet keyValueParameters sk
    if truthy v && isArray v then
      objDelete (objSet keyValueParameters (sk ++ "_filterable") v) sk
    else keyValueParameters
  | none => keyValueParameters

/-- Embeds `DynamoTable.mapItemResult` (table.js lines 361-374) for a table
without `constructOnGet`: every field holding a DocumentClient `Set` is
replaced by its `values` array. -/
def mapItemResult (item : JSVal) : JSVal :=
  match item with
  | .obj fields =>
    .obj (fields.map (fun f =>
      match f.2 with
      | .jsSet vs => (f.1, .arr vs)
      | v => (f.1, v)))
  | v => v

/-- One page returned by the store's `query`/`scan` primitive:
`Items` plus the continuation token `LastEvaluatedKey`. -/
structure Page where
  Items : List JSVal
  LastEvaluatedKey : Option Nat

/-- How a caller observes the promise returned by `query` or `scan`:
it settles with a value, settles with an error, or never settles. -/
inductive Outcome (α : Type) where
  | resolved (a : α)
  | rejected (e : String)
  | pending
deriving DecidableEq

/-- Embeds the `getPage` recursion inside `getAllPages`
(table.js lines 248-262 for `query`, 331-345 for `scan`): while a start
key is present, fetch the next page and concatenate its items; resolve
with the accumulated items when no key remains; reject on a fetch error.
`fuel` bounds the recursion; running out of fuel corresponds to a
pagination that never ends (`none`). -/
def getPageLoop (fetch : Option Nat → Except String Page) :
    Nat → List JSVal → Option Nat → Option (Except String (List JSVal))
  | _, items, none => some (.ok items)
  | 0, _, some _ => none
  | fuel + 1, items, some startKey =>
    match fetch (some startKey) with
    | .error err => some (.error err)
    | .ok pageResult =>
      getPageLoop fetch fuel (items ++ pageResult.Items)
        pageResult.LastEvaluatedKey

/-- Embeds the promise structure of `DynamoTable.query`'s page aggregation
(table.js lines 241-272).  The first `dynamo.query` failure rejects the
outer promise (line 269-271).  A failure inside `getAllPages` rejects the
promise returned by `getAllPages`, but the call site
`getAllPages(result).then(allItems => { resolve(...) })` (lines 266-268)
installs no rejection handler and the executor therefore never calls
`resolve` or `reject`: the promise handed to the caller never settles,
which is the `pending` outcome (as is a pagination that never
terminates). -/
def queryPagesOutcome (fetch : Option Nat → Except String Page)
    (fuel : Nat) : Outcome (List JSVal) :=
  match fetch none with
  | .error err => .rejected err
  | .ok result =>
    match getPageLoop fetch fuel result.Items result.LastEvaluatedKey with
    | some (.ok allItems) => .resolved (allItems.map mapItemResult)
    | some (.error _) => .pending
    | none => .pending

/-- Embeds the promise structure of `DynamoTable.scan`'s page aggregation
(table.js lines 324-352): here the aggregated promise is returned through
the `.then` chain, so a failure on any page — first or later — rejects the
promise handed to the caller. -/
def scanPagesOutcome (fetch : Option Nat → Except String Page)
    (fuel : Nat) : Outcome (List JSVal) :=
  match fetch none with
  | .error err => .rejected err
  | .ok result =>
    match getPageLoop fetch fuel result.Items result.LastEvaluatedKey with
    | some (.ok allItems) => .resolved (allItems.map mapItemResult)
    | some (.error err) => .rejected err
    | none => .pending

/-- Primitive (non-object) values for the heap model of `putItem`. -/
inductive PVal where
  | str (s : String)
  | num (n : Int)
  | bool (b : Bool)
  | null
  | undef
deriving DecidableEq, Repr

/-- A heap value: a primitive or a reference to a heap object.  References
make the sharing between an item and its `toPlainObject` copy explicit. -/
inductive HVal where
  | prim (p : PVal)
  | ref (r : Nat)
deriving DecidableEq, Repr

/-- A heap object: fields in property order. -/
abbrev HObj := List (String × HVal)

/-- The mutable object store: reference ↦ object. -/
abbrev Heap := List (Nat × HObj)

/-- Reads the object behind a reference. -/
def heapGet : Heap → Nat → Option HObj
  | [], _ => none
  | (r', o) :: rest, r => if r' = r then some o else heapGet rest r

/-- Replaces the object behind a reference. -/
def heapSet : Heap → Nat → HObj → Heap
  | [], _, _ => []
  | (r', o') :: rest, r, o =>
    if r' = r then (r, o) :: rest else (r', o') :: heapSet rest r o

/-- A reference unused by the heap. -/
def freshRef (h : Heap) : Nat :=
  (h.map Prod.fst).foldr max 0 + 1

/-- Allocates a new object, returning the heap and the new reference. -/
def heapAlloc (h : Heap) (o : HObj) : Heap × Nat :=
  (h ++ [(freshRef h, o)], freshRef h)

/-- Reads field `k` of the object behind `r`. -/
def objFieldGet (h : Heap) (r : Nat) (k : String) : Option HVal :=
  match heapGet h r with
  | none => none
  | some o => (o.find? (fun f => f.1 = k)).map Prod.snd

/-- Deletes field `k` of the object behind `r` (JS `delete obj[k]`). -/
def objFieldDelete (h : Heap) (r : Nat) (k : String) : Heap :=
  match heapGet h r with
  | none => h
  | some o => heapSet h r (o.filter (fun f => f.1 ≠ k))

/-- The field names of the object behind `r`, in property order. -/
def fieldKeys (h : Heap) (r : Nat) : List String :=
  ((heapGet h r).getD []).map Prod.fst

/-- Embeds `deleteEmptyStrings` (table.js lines 590-602) on the heap: the
`for (let i in obj)` loop deletes fields whose value is `''` and recurses
into fields whose value is of type `object` (a reference; `null` also has
type `object` but enumerates nothing).  The `fuel` argument makes the
recursion structural; any fuel larger than the number of reachable fields
computes the JS result. -/
def delFields : Nat → Heap → Nat → List String → Heap
  | 0, h, _, _ => h
  | _ + 1, h, _, [] => h
  | fuel + 1, h, r, k :: ks =>
    match objFieldGet h r k with
    | some (.prim (.str "")) => delFields fuel (objFieldDelete h r k) r ks
    | some (.ref r') =>
      delFields fuel (delFields fuel h r' (fieldKeys h r')) r ks
    | _ => delFields fuel h r ks

/-- Embeds `deleteEmptyStrings(obj)` applied to the object behind `r`. -/
def deleteEmptyStringsHeap (fuel : Nat) (h : Heap) (r : Nat) : Heap :=
  delFields fuel h r (fieldKeys h r)

/-- Embeds `toPlainObject` (table.js lines 414-424): a new object with the
same field list — a shallow copy, so object-valued fields are shared
references between the copy and the original. -/
def toPlainObjectHeap (h : Heap) (r : Nat) : Heap × Nat :=
  heapAlloc h ((heapGet h r).getD [])

/-- Embeds `DynamoTable.putItem` (table.js lines 108-127) for a table
without an `objectConstructor`: shallow-copies the item, strips empty
strings from the copy in place, writes the copy (`Item: plainItem`), and
resolves with the original item.  Returns the final heap, the reference
written to the store, and the reference resolved to the caller. -/
def putItemHeap (fuel : Nat) (h : Heap) (item : Nat) : Heap × Nat × Nat :=
  let (h1, plainItem) := toPlainObjectHeap h item
  let h2 := deleteEmptyStringsHeap fuel h1 plainItem
  (h2, plainItem, item)

/-! ### Basic lemmas about the JavaScript object model -/

theorem objGet_objSet_self (o : JObj) (k : String) (v : JSVal) :
    objGet (objSet o k v) k = v := by
  induction o with
  | nil => simp [objSet, objGet]
  | cons e rest ih =>
    obtain ⟨k₀, v₀⟩ := e
    by_cases h : k₀ = k
    · simp [objSet, objGet, h]
    · simp [objSet, objGet, h, ih]

theorem objGet_objSet_ne (o : JObj) (k k' : String) (v : JSVal)
    (h : k' ≠ k) : objGet (objSet o k v) k' = objGet o k' := by
  induction o with
  | nil =>
    simp only [objSet, objGet]
    rw [if_neg (Ne.symm h)]
  | cons e rest ih =>
    obtain ⟨k₀, v₀⟩ := e
    by_cases h₀ : k₀ = k
    · subst h₀
      simp only [objSet, if_pos rfl, objGet]
      rw [if_neg (Ne.symm h), if_neg (Ne.symm h)]
    · simp only [objSet, if_neg h₀, objGet]
      by_cases h₁ : k₀ = k'
      · rw [if_pos h₁, if_pos h₁]
      · rw [if_neg h₁, if_neg h₁, ih]

theorem objHas_objSet_self (o : JObj) (k : String) (v : JSVal) :
    objHas (objSet o k v) k = true := by
  induction o with
  | nil => simp [objSet, objHas]
  | cons e rest ih =>
    obtain ⟨k₀, v₀⟩ := e
    by_cases h : k₀ = k
    · simp [objSet, objHas, h]
    · simp only [objSet, if_neg h, objHas, ih, Bool.or_true]

theorem objGet_objDelete_self (o : JObj) (k : String) :
    objGet (objDelete o k) k = .undef := by
  induction o with
  | nil => simp [objDelete, objGet]
  | cons e rest ih =>
    obtain ⟨k₀, v₀⟩ := e
    by_cases h : k₀ = k
    · simpa [objDelete, h] using ih
    · simp [objDelete, objGet, h, ih]

theorem objGet_objDelete_ne (o : JObj) (k k' : String) (h : k' ≠ k) :
    objGet (objDelete o k) k' = objGet o k' := by
  induction o with
  | nil => simp [objDelete]
  | cons e rest ih =>
    obtain ⟨k₀, v₀⟩ := e
    by_cases h₀ : k₀ = k
    · subst h₀
      simp [objDelete, objGet, Ne.symm h, ih]
    · simp only [objDelete, if_neg h₀, objGet]
      by_cases h₁ : k₀ = k'
      · rw [if_pos h₁, if_pos h₁]
      · rw [if_neg h₁, if_neg h₁, ih]

theorem string_ne_append_suffix (s t : String) (h : t.data ≠ []) :
    s ≠ s ++ t := by
  intro he
  have hd : s.data = s.data ++ t.data := by
    simpa [String.data_append] using congrArg String.data he
  have hl := congrArg List.length hd
  rw [List.length_append] at hl
  have hz : t.data.length = 0 := by omega
  exact h (List.length_eq_zero.mp hz)

/-! ### Claim C10: key objects always carry a sort-key entry -/

/-- Claim C10: for every `getItem`/`deleteItem` call, the key object built
by `buildKeyParameters` contains an entry under the table's sort-key
attribute name — the string `"null"` when the table has no sort key — and
that entry holds exactly the supplied sort value (`undefined` when the
argument is omitted). -/
theorem claim10_key_object_always_has_sort_entry (t : DynamoTable)
    (partitionValue sortValue : JSVal) :
    objHas (t.itemKeyObject partitionValue sortValue)
        (match t.sortKey with | some s => s | none => "null") = true ∧
    objGet (t.itemKeyObject partitionValue sortValue)
        (match t.sortKey with | some s => s | none => "null") = sortValue := by
  unfold DynamoTable.itemKeyObject DynamoTable.buildKeyParameters
  exact ⟨objHas_objSet_self .., objGet_objSet_self ..⟩

/-! ### Claim C9: scan rewrites the caller's filter set in place -/

/-- Claim C9: when `scan` is called on a table with a sort key and the
caller's filter set binds that sort key to an array, the filter object —
the caller's own object, mutated in place by table.js lines 305-308 — ends
up without the sort-key entry and with the array re-added under
`<sortKey>_filterable`.  `query`'s no-schema fallback (line 214) passes the
caller's object to `scan` unchanged, so the same mutation is visible there
too. -/
theorem claim9_scan_mutates_filter_set (t : DynamoTable) (kvp : JObj)
    (sk : String) (vs : List JSVal)
    (hsk : t.sortKey = some sk) (hval : objGet kvp sk = .arr vs) :
    objGet (t.scanFilterSetAfter kvp) sk = .undef ∧
    objGet (t.scanFilterSetAfter kvp) (sk ++ "_filterable") = .arr vs := by
  unfold DynamoTable.scanFilterSetAfter
  rw [hsk]
  simp only [hval]
  simp [truthy, isArray]
  refine ⟨objGet_objDelete_self .., ?_⟩
  rw [objGet_objDelete_ne _ _ _ (Ne.symm (string_ne_append_suffix sk "_filterable" (by decide)))]
  exact objGet_objSet_self ..

/-- Witness for claim C9 at a concrete table and filter set. -/
theorem claim9_scan_mutates_filter_set_witness :
    objGet
        ((DynamoTable.mk "T" "p" (some "s")
            (TableDesc.mk "T" [⟨"p", "HASH"⟩, ⟨"s", "RANGE"⟩] none none)).scanFilterSetAfter
          [("s", .arr [.num 1]), ("x", .str "q")]) "s" = .undef ∧
    objGet
        ((DynamoTable.mk "T" "p" (some "s")
            (TableDesc.mk "T" [⟨"p", "HASH"⟩, ⟨"s", "RANGE"⟩] none none)).scanFilterSetAfter
          [("s", .arr [.num 1]), ("x", .str "q")]) "s_filterable" = .arr [.num 1] :=
  claim9_scan_mutates_filter_set _ _ "s" [.num 1] rfl rfl

/-! ### Claim C5: failure behaviour of the page aggregation -/

/-- A store that returns one page with a continuation token and fails on
the second fetch. -/
def pageFetchMidFailure : Option Nat → Except String Page
  | none => .ok ⟨[.num 1], some 7⟩
  | some _ => .error "StoreError"

/-- A store whose very first fetch fails. -/
def pageFetchFirstFailure : Option Nat → Except String Page :=
  fun _ => .error "StoreError"

/-- Claim C5, evaluated at the failing input: when the second page fetch of
a `query` fails, the promise handed to the caller never settles (the
`getAllPages(result).then(...)` call site installs no rejection handler),
so no failed outcome is surfaced; `scan` in the same situation — and both
operations on a first-page failure — do reject as the claim describes. -/
theorem claim5_mid_pagination_failure_eval :
    queryPagesOutcome pageFetchMidFailure 5 = .pending ∧
    scanPagesOutcome pageFetchMidFailure 5 = .rejected "StoreError" ∧
    queryPagesOutcome pageFetchFirstFailure 5 = .rejected "StoreError" ∧
    scanPagesOutcome pageFetchFirstFailure 5 = .rejected "StoreError" :=
  ⟨rfl, rfl, rfl, rfl⟩

/-! ### Claim C6: putItem and the shallow copy -/

/-- The heap holding the claim's example item
`{a: "", b: {c: "", d: "x"}}`: reference 0 is the item, reference 1 its
nested object `b`. -/
def itemHeapExample : Heap :=
  [(0, [("a", .prim (.str "")), ("b", .ref 1)]),
   (1, [("c", .prim (.str "")), ("d", .prim (.str "x"))])]

/-- Counterexample to claim C6: before the call the resolved item's nested
object (reference 1, the value of `b`) holds `c = ""`; after `putItem` the
resolved item is still reference 0 and still points at reference 1 for
`b`, but `b.c` is gone — the nested empty-string attribute of the resolved
item was removed by the cleaning, because `toPlainObject` copies only the
top level and the nested object is shared with the cleaned copy. -/
theorem claim6_counterexample :
    objFieldGet itemHeapExample 1 "c" = some (.prim (.str "")) ∧
    (putItemHeap 10 itemHeapExample 0).2.2 = 0 ∧
    objFieldGet (putItemHeap 10 itemHeapExample 0).1 0 "b" = some (.ref 1) ∧
    objFieldGet (putItemHeap 10 itemHeapExample 0).1 1 "c" = none :=
  ⟨rfl, rfl, rfl, rfl⟩

/-- Claim C6 as amended: on the example item, `putItem` writes the cleaned
copy (reference 2) which lacks `a` and whose `b` (the shared reference 1)
lacks `c` and keeps `d = "x"`; the resolved item is the original reference
0, which keeps its top-level `a = ""` (the shallow copy protects the top
level) but has also lost `b.c`, since the nested object is shared with the
copy that was cleaned in place. -/
theorem claim6_amended_putItem_example :
    putItemHeap 10 itemHeapExample 0 =
      ([(0, [("a", .prim (.str "")), ("b", .ref 1)]),
        (1, [("d", .prim (.str "x"))]),
        (2, [("b", .ref 1)])], 2, 0) :=
  rfl

/-! ### Claims C1 and C2: index selection -/

/-- A table with primary schema `(p, s)`, no local secondary indexes, and
one global secondary index `byG` keyed on `g` alone. -/
def tableWithGsi : DynamoTable :=
  { tableName := "T"
    partitionKey := "p"
    sortKey := some "s"
    tableDesc :=
      { TableName := "T"
        KeySchema := [⟨"p", "HASH"⟩, ⟨"s", "RANGE"⟩]
        GlobalSecondaryIndexes := some [⟨"byG", [⟨"g", "HASH"⟩]⟩] } }

/-- Counterexample to claim C1: with filter set `{p: "a", g: "b"}` the
partition key is present as a scalar, the primary schema is not an exact
fit (the sort key `s` is missing) and there are no local secondary
indexes, yet `query`'s selection is the global secondary index `byG`, not
the tentatively selected primary schema — the GSI exact-fit scan runs even
though a partition-only primary query was available, because the source
guards it only with `!lsiFound`. -/
theorem claim1_counterexample :
    fitsParamsExactly [("p", .str "a"), ("g", .str "b")]
        tableWithGsi.tableDesc.KeySchema = false ∧
    truthy (objGet [("p", .str "a"), ("g", .str "b")]
        tableWithGsi.partitionKey) = true ∧
    isArray (objGet [("p", .str "a"), ("g", .str "b")]
        tableWithGsi.partitionKey) = false ∧
    tableWithGsi.tableDesc.LocalSecondaryIndexes = none ∧
    tableWithGsi.querySelectSchema [("p", .str "a"), ("g", .str "b")]
      = .schema [⟨"g", "HASH"⟩] (some "byG") ∧
    tableWithGsi.querySelectSchema [("p", .str "a"), ("g", .str "b")]
      ≠ .schema tableWithGsi.tableDesc.KeySchema none := by
  refine ⟨rfl, rfl, rfl, rfl, rfl, ?_⟩
  decide

/-- Claim C1 as amended: when the filter set contains the table's partition
key as a truthy scalar but neither the primary key schema, nor any local
secondary index, nor any global secondary index is an exact scalar fit,
the tentatively selected primary schema is the final selection; the
partial global-match step never overrides it.  (The original claim failed
because an exact-fit global secondary index does override the tentative
primary selection.) -/
theorem claim1_partition_only_primary_is_final (t : DynamoTable)
    (kvp : JObj)
    (hfit : fitsParamsExactly kvp t.tableDesc.KeySchema = false)
    (hpk : truthy (objGet kvp t.partitionKey) = true)
    (hlsi : ∀ lsis, t.tableDesc.LocalSecondaryIndexes = some lsis →
      ∀ index ∈ lsis, fitsParamsExactly kvp index.KeySchema = false)
    (hgsi : ∀ gsis, t.tableDesc.GlobalSecondaryIndexes = some gsis →
      ∀ index ∈ gsis, fitsParamsExactly kvp index.KeySchema = false) :
    t.querySelectSchema kvp = .schema t.tableDesc.KeySchema none := by
  unfold DynamoTable.querySelectSchema
  rw [hfit]
  cases hL : t.tableDesc.LocalSecondaryIndexes with
  | none =>
    cases hG : t.tableDesc.GlobalSecondaryIndexes with
    | none => simp [hpk]
    | some gsis =>
      have hfind : gsis.find?
          (fun (index : SecondaryIndex) => fitsParamsExactly kvp index.KeySchema) = none :=
        List.find?_eq_none.mpr (fun x hx => by simp [hgsi gsis hG x hx])
      simp [hpk, hfind]
  | some lsis =>
    have hfindL : lsis.find?
        (fun (index : SecondaryIndex) => fitsParamsExactly kvp index.KeySchema) = none :=
      List.find?_eq_none.mpr (fun x hx => by simp [hlsi lsis hL x hx])
    cases hG : t.tableDesc.GlobalSecondaryIndexes with
    | none => simp [hpk, hfindL]
    | some gsis =>
      have hfind : gsis.find?
          (fun (index : SecondaryIndex) => fitsParamsExactly kvp index.KeySchema) = none :=
        List.find?_eq_none.mpr (fun x hx => by simp [hgsi gsis hG x hx])
      simp [hpk, hfindL, hfind]

/-- Witness for the amended claim C1: a table whose only global index does
not fit, so the tentative primary selection is final. -/
theorem claim1_partition_only_primary_is_final_witness :
    (DynamoTable.mk "T" "p" (some "s")
        (TableDesc.mk "T" [⟨"p", "HASH"⟩, ⟨"s", "RANGE"⟩] none
          (some [⟨"byG", [⟨"g", "HASH"⟩]⟩]))).querySelectSchema
      [("p", .str "a")] = .schema [⟨"p", "HASH"⟩, ⟨"s", "RANGE"⟩] none :=
  claim1_partition_only_primary_is_final _ [("p", .str "a")] rfl rfl
    (by intro lsis h; cases h)
    (by
      intro gsis h index hmem
      cases h
      simp only [List.mem_singleton] at hmem
      subst hmem
      rfl)

/-- A single-attribute table `p` with no secondary indexes. -/
def tableListPk : DynamoTable :=
  { tableName := "T"
    partitionKey := "p"
    sortKey := none
    tableDesc := { TableName := "T", KeySchema := [⟨"p", "HASH"⟩] } }

/-- A table whose only chance to serve a query is the global secondary
index `byG` keyed on `g`. -/
def tableGsiOnly : DynamoTable :=
  { tableName := "T"
    partitionKey := "p"
    sortKey := none
    tableDesc :=
      { TableName := "T"
        KeySchema := [⟨"p", "HASH"⟩]
        GlobalSecondaryIndexes := some [⟨"byG", [⟨"g", "HASH"⟩]⟩] } }

/-- Counterexample to claim C2: binding the table's partition key to a
list makes the partition-present step select the primary schema (a list is
truthy), and binding a global index's partition key to a list makes the
partial global-match step select that index — in both presence tests a
list-valued key does count as present, contrary to the claim (only the
exact-fit test rejects lists). -/
theorem claim2_counterexample :
    tableListPk.querySelectSchema [("p", .arr [.num 1, .num 2])]
      = .schema [⟨"p", "HASH"⟩] none ∧
    tableGsiOnly.querySelectSchema [("g", .arr [.num 1])]
      = .schema [⟨"g", "HASH"⟩] (some "byG") :=
  ⟨rfl, rfl⟩

/-- Claim C2 as amended: a list-valued attribute never satisfies the
exact-fit test (`fitsParamsExactly` is false whenever any schema attribute
is bound to an array), but the presence tests of the partition-present
step and of the partial global-match step are plain truthiness checks, and
a list-valued key does count as present there. -/
theorem claim2_list_never_satisfies_exact_fit (kvp : JObj)
    (keySchema : List KeySchemaElement) (key : KeySchemaElement)
    (hmem : key ∈ keySchema)
    (harr : isArray (objGet kvp key.AttributeName) = true) :
    fitsParamsExactly kvp keySchema = false := by
  cases hfa : fitsParamsExactly kvp keySchema with
  | false => rfl
  | true =>
    unfold fitsParamsExactly at hfa
    have := List.all_eq_true.mp hfa key hmem
    rw [harr] at this
    simp at this

/-- Witness for the amended claim C2 at a concrete schema and filter. -/
theorem claim2_list_never_satisfies_exact_fit_witness :
    fitsParamsExactly [("p", .arr [.num 1])] [⟨"p", "HASH"⟩] = false :=
  claim2_list_never_satisfies_exact_fit _ _ ⟨"p", "HASH"⟩ (by simp) rfl

/-! ### String helper lemmas for the expression builders -/

theorem splitDots_no_dot (l : List Char) (h : '.' ∉ l) : splitDots l = [l] := by
  induction l with
  | nil => rfl
  | cons c cs ih =>
    have hc : c ≠ '.' := fun hh => h (hh ▸ List.mem_cons_self c cs)
    have hcs : '.' ∉ cs := fun hh => h (List.mem_cons_of_mem c hh)
    simp [splitDots, ih hcs, hc]

theorem keyParts_no_dot (k : String) (h : '.' ∉ k.data) : keyParts k = [k] := by
  unfold keyParts
  rw [splitDots_no_dot k.data h]
  rfl

theorem sanitizeDots_no_dot (s : String) (h : '.' ∉ s.data) :
    sanitizeDots s = s := by
  unfold sanitizeDots
  rw [splitDots_no_dot s.data h]
  rfl

theorem no_dot_append (s t : String) (hs : '.' ∉ s.data) (ht : '.' ∉ t.data) :
    '.' ∉ (s ++ t).data := by
  rw [String.data_append]
  intro h
  rcases List.mem_append.mp h with h1 | h2
  · exact hs h1
  · exact ht h2

theorem string_append_left_cancel (s a b : String) (h : s ++ a = s ++ b) :
    a = b := by
  apply String.ext
  have hd := congrArg String.data h
  rw [String.data_append, String.data_append] at hd
  exact List.append_inj_right hd rfl

theorem string_append_right_cancel (a b s : String) (h : a ++ s = b ++ s) :
    a = b := by
  apply String.ext
  have hd := congrArg String.data h
  rw [String.data_append, String.data_append] at hd
  exact List.append_inj_left' hd rfl

theorem digitChar_isDigit (m : Nat) (h : m < 10) :
    (Nat.digitChar m).isDigit = true := by
  interval_cases m <;> decide

theorem toDecimalDigits_isDigit :
    ∀ (fuel n : Nat), ∀ c ∈ toDecimalDigits fuel n, c.isDigit = true := by
  intro fuel
  induction fuel with
  | zero => intro n c h; cases h
  | succ fuel ih =>
    intro n c h
    unfold toDecimalDigits at h
    by_cases hn : n < 10
    · rw [if_pos hn] at h
      have hc : c = Nat.digitChar n := by simpa using h
      subst hc
      exact digitChar_isDigit n hn
    · rw [if_neg hn] at h
      rcases List.mem_append.mp h with h1 | h2
      · exact ih _ _ h1
      · have hc : c = Nat.digitChar (n % 10) := by simpa using h2
        subst hc
        exact digitChar_isDigit _ (Nat.mod_lt _ (by omega))

theorem natToDecimal_isDigit (n : Nat) :
    ∀ c ∈ (natToDecimal n).data, c.isDigit = true := by
  intro c h
  exact toDecimalDigits_isDigit (n + 1) n c h

theorem isDigit_ne_dot (c : Char) (h : c.isDigit = true) : c ≠ '.' := by
  intro hc
  subst hc
  exact absurd h (by decide)

theorem natToDecimal_no_dot (n : Nat) : '.' ∉ (natToDecimal n).data := by
  intro h
  exact isDigit_ne_dot '.' (natToDecimal_isDigit n '.' h) rfl

/-- Numeric value of a decimal digit string, used to invert
`toDecimalDigits`. -/
def decValue (l : List Char) : Nat :=
  l.foldl (fun a c => 10 * a + (c.toNat - 48)) 0

theorem decValue_from (l : List Char) :
    ∀ a, l.foldl (fun a c => 10 * a + (c.toNat - 48)) a
      = a * 10 ^ l.length + decValue l := by
  induction l with
  | nil => intro a; simp [decValue]
  | cons c cs ih =>
    intro a
    have h1 := ih (10 * a + (c.toNat - 48))
    have h2 := ih (10 * 0 + (c.toNat - 48))
    simp only [List.foldl_cons, decValue] at *
    rw [h1, h2]
    simp only [List.length_cons, pow_succ]
    ring

theorem decValue_append_singleton (l : List Char) (c : Char) :
    decValue (l ++ [c]) = 10 * decValue l + (c.toNat - 48) := by
  unfold decValue
  rw [List.foldl_append]
  rfl

theorem digitChar_toNat (m : Nat) (h : m < 10) :
    (Nat.digitChar m).toNat - 48 = m := by
  interval_cases m <;> decide

theorem decValue_toDecimalDigits :
    ∀ (fuel n : Nat), n < fuel → decValue (toDecimalDigits fuel n) = n := by
  intro fuel
  induction fuel with
  | zero => intro n h; omega
  | succ fuel ih =>
    intro n h
    unfold toDecimalDigits
    by_cases hn : n < 10
    · rw [if_pos hn]
      simpa [decValue] using digitChar_toNat n hn
    · rw [if_neg hn]
      rw [decValue_append_singleton, digitChar_toNat _ (Nat.mod_lt _ (by omega))]
      have hdiv : n / 10 < fuel := by
        have := Nat.div_lt_self (by omega : 0 < n) (by omega : 1 < 10)
        omega
      rw [ih _ hdiv]
      omega

theorem natToDecimal_inj (m n : Nat) (h : natToDecimal m = natToDecimal n) :
    m = n := by
  have hd := congrArg String.data h
  simp only [natToDecimal] at hd
  have hm := decValue_toDecimalDigits (m + 1) m (by omega)
  have hn := decValue_toDecimalDigits (n + 1) n (by omega)
  rw [hd] at hm
  omega

/-! ### Claim C8: range clauses -/

/-- Counterexample to claim C8: the range entry `(0, 10)` has both bounds
present, so the claim requires `BETWEEN 0 AND 10`; the source tests the
low bound with `!values[0]`, which is true for the present bound `0`, and
emits `n <= 10` instead. -/
theorem claim8_counterexample :
    (buildFilterExpression [] [] none (some [("n", .num 0, .num 10)])
        ExprMaps.empty).1 = some "#n0 <= :n1" ∧
    (buildFilterExpression [] [] none (some [("n", .num 0, .num 10)])
        ExprMaps.empty).2.valueLog = [(":n1", .num 10)] :=
  ⟨rfl, rfl⟩

/-- Claim C8 as amended: for an entry of the range query, the emitted
clause is `attr <= high` when the low bound is falsy (absent, or a present
falsy scalar such as `0`), `attr >= low` when the low bound is truthy and
the high bound is falsy, and `attr BETWEEN low AND high` when both bounds
are truthy — with one value placeholder per bound used.  (The original
claim's "absent" is really a JS falsiness test.) -/
theorem addBetween_eval (k : String) (low high : JSVal) (st : BuildState)
    (hdot : '.' ∉ k.data) :
    addBetweenQueryToExpression k low high st
      = if truthy low = false then
          { expression := st.expression ++ ("#" ++ k ++ "0") ++ " <= "
              ++ (":" ++ k ++ "1")
            maps := assignValue (assignName st.maps ("#" ++ k ++ "0") k)
              (":" ++ k ++ "1") high }
        else if truthy high = false then
          { expression := st.expression ++ ("#" ++ k ++ "0") ++ " >= "
              ++ (":" ++ k ++ "1")
            maps := assignValue (assignName st.maps ("#" ++ k ++ "0") k)
              (":" ++ k ++ "1") low }
        else
          { expression := st.expression ++ ("#" ++ k ++ "0") ++ " BETWEEN "
              ++ (":" ++ k ++ "1") ++ " AND " ++ (":" ++ k ++ "2")
            maps := assignValue (assignValue
              (assignName st.maps ("#" ++ k ++ "0") k) (":" ++ k ++ "1") low)
              (":" ++ k ++ "2") high } := by
  have hp1 : sanitizeDots (":" ++ k ++ "1") = ":" ++ k ++ "1" :=
    sanitizeDots_no_dot _
      (no_dot_append _ _ (no_dot_append ":" k (by decide) hdot) (by decide))
  have hp2 : sanitizeDots (":" ++ k ++ "2") = ":" ++ k ++ "2" :=
    sanitizeDots_no_dot _
      (no_dot_append _ _ (no_dot_append ":" k (by decide) hdot) (by decide))
  have hkp : buildKeyPlaceholder k st.maps
      = (("#" ++ k ++ "0"), assignName st.maps ("#" ++ k ++ "0") k) := by
    unfold buildKeyPlaceholder
    rw [keyParts_no_dot k hdot]
    rfl
  simp only [addBetweenQueryToExpression, hkp, hp1, hp2]

theorem claim8_range_clause_shapes (k : String) (low high : JSVal)
    (hdot : '.' ∉ k.data) :
    (buildFilterExpression [] [] none (some [(k, low, high)]) ExprMaps.empty).1
      = some (if truthy low = false
          then ("#" ++ k ++ "0") ++ " <= " ++ (":" ++ k ++ "1")
          else if truthy high = false
          then ("#" ++ k ++ "0") ++ " >= " ++ (":" ++ k ++ "1")
          else ("#" ++ k ++ "0") ++ " BETWEEN " ++ (":" ++ k ++ "1")
            ++ " AND " ++ (":" ++ k ++ "2")) ∧
    (buildFilterExpression [] [] none (some [(k, low, high)])
        ExprMaps.empty).2.valueLog
      = (if truthy low = false then [((":" ++ k ++ "1"), high)]
         else if truthy high = false then [((":" ++ k ++ "1"), low)]
         else [((":" ++ k ++ "1"), low), ((":" ++ k ++ "2"), high)]) := by
  have hred : buildFilterExpression [] [] none (some [(k, low, high)])
      ExprMaps.empty
      = (if (addBetweenQueryToExpression k low high
              ⟨"", ExprMaps.empty⟩).expression.length > 0
         then some (addBetweenQueryToExpression k low high
              ⟨"", ExprMaps.empty⟩).expression
         else none,
         (addBetweenQueryToExpression k low high ⟨"", ExprMaps.empty⟩).maps) :=
    rfl
  rw [hred, addBetween_eval k low high ⟨"", ExprMaps.empty⟩ hdot]
  by_cases hlow : truthy low = false
  · simp only [if_pos hlow, String.empty_append]
    have hlen : (("#" ++ k ++ "0") ++ " <= " ++ (":" ++ k ++ "1")).length > 0 := by
      simp only [String.length_append]
      have h1 : ("#" : String).length = 1 := rfl
      omega
    rw [if_pos hlen]
    exact ⟨rfl, rfl⟩
  · by_cases hhigh : truthy high = false
    · simp only [if_neg hlow, if_pos hhigh, String.empty_append]
      have hlen : (("#" ++ k ++ "0") ++ " >= " ++ (":" ++ k ++ "1")).length > 0 := by
        simp only [String.length_append]
        have h1 : ("#" : String).length = 1 := rfl
        omega
      rw [if_pos hlen]
      exact ⟨rfl, rfl⟩
    · simp only [if_neg hlow, if_neg hhigh, String.empty_append]
      have hlen : (("#" ++ k ++ "0") ++ " BETWEEN " ++ (":" ++ k ++ "1")
          ++ " AND " ++ (":" ++ k ++ "2")).length > 0 := by
        simp only [String.length_append]
        have h1 : ("#" : String).length = 1 := rfl
        omega
      rw [if_pos hlen]
      exact ⟨rfl, rfl⟩

/-- Witness for the amended claim C8 at the three bound combinations of
the spec's example. -/
theorem claim8_range_clause_shapes_witness :
    (buildFilterExpression [] [] none (some [("n", .undef, .num 10)])
        ExprMaps.empty).1 = some "#n0 <= :n1" ∧
    (buildFilterExpression [] [] none (some [("n", .num 5, .undef)])
        ExprMaps.empty).1 = some "#n0 >= :n1" ∧
    (buildFilterExpression [] [] none (some [("n", .num 5, .num 10)])
        ExprMaps.empty).1 = some "#n0 BETWEEN :n1 AND :n2" ∧
    (buildFilterExpression [] [] none (some [("n", .num 5, .num 10)])
        ExprMaps.empty).2.valueLog = [(":n1", .num 5), (":n2", .num 10)] := by
  refine ⟨?_, ?_, ?_, ?_⟩
  · have h := (claim8_range_clause_shapes "n" .undef (.num 10) (by decide)).1
    simpa using h
  · have h := (claim8_range_clause_shapes "n" (.num 5) .undef (by decide)).1
    simpa using h
  · have h := (claim8_range_clause_shapes "n" (.num 5) (.num 10) (by decide)).1
    simpa using h
  · have h := (claim8_range_clause_shapes "n" (.num 5) (.num 10) (by decide)).2
    simpa using h

/-! ### Claim C7: the key-condition partition clause -/

/-- Lookup in the `ExpressionAttributeNames` object. -/
def nameMapGet : List (String × String) → String → Option String
  | [], _ => none
  | (k', v) :: rest, k => if k' = k then some v else nameMapGet rest k

theorem nameMapGet_nameMapSet_self (m : List (String × String)) (k v : String) :
    nameMapGet (nameMapSet m k v) k = some v := by
  induction m with
  | nil => simp [nameMapSet, nameMapGet]
  | cons e rest ih =>
    obtain ⟨k₀, v₀⟩ := e
    by_cases h : k₀ = k
    · simp [nameMapSet, nameMapGet, h]
    · simp [nameMapSet, nameMapGet, h, ih]

theorem nameMapGet_nameMapSet_ne (m : List (String × String)) (k k' v : String)
    (h : k' ≠ k) : nameMapGet (nameMapSet m k v) k' = nameMapGet m k' := by
  induction m with
  | nil =>
    simp only [nameMapSet, nameMapGet]
    rw [if_neg (Ne.symm h)]
  | cons e rest ih =>
    obtain ⟨k₀, v₀⟩ := e
    by_cases h₀ : k₀ = k
    · subst h₀
      simp only [nameMapSet, if_pos rfl, nameMapGet]
      rw [if_neg (Ne.symm h), if_neg (Ne.symm h)]
    · simp only [nameMapSet, if_neg h₀, nameMapGet]
      by_cases h₁ : k₀ = k'
      · rw [if_pos h₁, if_pos h₁]
      · rw [if_neg h₁, if_neg h₁, ih]

/-- Counterexample to claim C7: the empty string is a present scalar value
for the partition key `p`, yet the build fails with `MissingPartitionKey`,
because the source's test `if (!pkValue)` is a falsiness test, not a
presence test. -/
theorem claim7_counterexample :
    objGet [("p", .str "")] "p" = .str "" ∧
    isArray (objGet [("p", .str "")] "p") = false ∧
    buildKeyConditionExpression [⟨"p", "HASH"⟩] [("p", .str "")]
        ExprMaps.empty
      = .error (.missingPartitionKey "p") :=
  ⟨rfl, rfl, rfl⟩

/-- Claim C7 as amended: `buildKeyConditionExpression` fails with
`MissingPartitionKey` exactly when the filter set's value for the schema's
partition key is falsy (absent, `""`, `0`, `false`, `null`) — so a present
falsy scalar also fails, and a present list does not; the failure is a
synchronous throw before any store call.  When the value is truthy, the
expression begins with the partition equality clause `#p = :p` and the
name and value placeholders are bound to the real attribute name and
value. -/
theorem claim7_partition_clause (ks : List KeySchemaElement) (kvp : JObj)
    (pk : KeySchemaElement)
    (hpk : ks.find? (fun (key : KeySchemaElement) => key.KeyType == "HASH")
      = some pk) :
    ((∃ name, buildKeyConditionExpression ks kvp ExprMaps.empty
        = .error (.missingPartitionKey name))
      ↔ truthy (objGet kvp pk.AttributeName) = false) ∧
    (truthy (objGet kvp pk.AttributeName) = true →
      ∃ rest m,
        buildKeyConditionExpression ks kvp ExprMaps.empty
          = .ok ((("#" ++ pk.AttributeName) ++ " = "
              ++ (":" ++ pk.AttributeName)) ++ rest, m) ∧
        nameMapGet m.names ("#" ++ pk.AttributeName)
          = some pk.AttributeName ∧
        objGet m.values (":" ++ pk.AttributeName)
          = objGet kvp pk.AttributeName) := by
  have hfalse : ¬ truthy (objGet kvp pk.AttributeName) = true →
      truthy (objGet kvp pk.AttributeName) = false := by
    cases truthy (objGet kvp pk.AttributeName) <;> simp
  cases hs : ks.find? (fun (key : KeySchemaElement) => key.KeyType == "RANGE") with
  | none =>
    have hstep : buildKeyConditionExpression ks kvp ExprMaps.empty
        = (if truthy (objGet kvp pk.AttributeName) = true
           then Except.ok (addKeyToExpression pk kvp "" ExprMaps.empty)
           else Except.error (BuildErr.missingPartitionKey pk.AttributeName)) := by
      unfold buildKeyConditionExpression
      rw [hpk, hs]
    rw [hstep]
    by_cases ht : truthy (objGet kvp pk.AttributeName) = true
    · rw [if_pos ht]
      refine ⟨⟨fun ⟨name, hname⟩ => (by cases hname),
        fun hf => (by rw [ht] at hf; cases hf)⟩, ?_⟩
      intro _
      refine ⟨"", (addKeyToExpression pk kvp "" ExprMaps.empty).2, ?_, ?_, ?_⟩
      · rw [String.append_empty]
        rfl
      · exact nameMapGet_nameMapSet_self ..
      · exact objGet_objSet_self ..
    · rw [if_neg ht]
      refine ⟨⟨fun _ => hfalse ht, fun _ => ⟨pk.AttributeName, rfl⟩⟩, ?_⟩
      intro htt
      exact absurd htt ht
  | some sk =>
    have hstep : buildKeyConditionExpression ks kvp ExprMaps.empty
        = (if truthy (objGet kvp pk.AttributeName) = true
           then
             if truthy (objGet kvp sk.AttributeName) = true
             then Except.ok (addKeyToExpression sk kvp
               ((addKeyToExpression pk kvp "" ExprMaps.empty).1 ++ " AND ")
               (addKeyToExpression pk kvp "" ExprMaps.empty).2)
             else Except.ok (addKeyToExpression pk kvp "" ExprMaps.empty)
           else Except.error (BuildErr.missingPartitionKey pk.AttributeName)) := by
      unfold buildKeyConditionExpression
      rw [hpk, hs]
    rw [hstep]
    by_cases ht : truthy (objGet kvp pk.AttributeName) = true
    · rw [if_pos ht]
      by_cases hts : truthy (objGet kvp sk.AttributeName) = true
      · rw [if_pos hts]
        refine ⟨⟨fun ⟨name, hname⟩ => (by cases hname),
          fun hf => (by rw [ht] at hf; cases hf)⟩, ?_⟩
        intro _
        refine ⟨" AND " ++ (("#" ++ sk.AttributeName) ++ " = "
            ++ (":" ++ sk.AttributeName)),
          (addKeyToExpression sk kvp
            ((addKeyToExpression pk kvp "" ExprMaps.empty).1 ++ " AND ")
            (addKeyToExpression pk kvp "" ExprMaps.empty).2).2, ?_, ?_, ?_⟩
        · have hexp : (addKeyToExpression sk kvp
              ((addKeyToExpression pk kvp "" ExprMaps.empty).1 ++ " AND ")
              (addKeyToExpression pk kvp "" ExprMaps.empty).2).1
            = (("#" ++ pk.AttributeName) ++ " = "
                ++ (":" ++ pk.AttributeName))
              ++ (" AND " ++ (("#" ++ sk.AttributeName) ++ " = "
                ++ (":" ++ sk.AttributeName))) := by
            apply String.ext
            simp [addKeyToExpression, String.data_append]
          rw [← hexp]
        · by_cases heq : ("#" ++ sk.AttributeName) = ("#" ++ pk.AttributeName)
          · have hattr : sk.AttributeName = pk.AttributeName :=
              string_append_left_cancel "#" _ _ heq
            simp only [addKeyToExpression, assignName, assignValue]
            rw [← heq, nameMapGet_nameMapSet_self, hattr]
          · simp only [addKeyToExpression, assignName, assignValue]
            rw [nameMapGet_nameMapSet_ne _ _ _ _ (fun hh => heq hh.symm)]
            exact nameMapGet_nameMapSet_self ..
        · by_cases heq : (":" ++ sk.AttributeName) = (":" ++ pk.AttributeName)
          · have hattr : sk.AttributeName = pk.AttributeName :=
              string_append_left_cancel ":" _ _ heq
            simp only [addKeyToExpression, assignName, assignValue]
            rw [← heq, objGet_objSet_self, hattr]
          · simp only [addKeyToExpression, assignName, assignValue]
            rw [objGet_objSet_ne _ _ _ _ (fun hh => heq hh.symm)]
            exact objGet_objSet_self ..
      · rw [if_neg hts]
        refine ⟨⟨fun ⟨name, hname⟩ => (by cases hname),
          fun hf => (by rw [ht] at hf; cases hf)⟩, ?_⟩
        intro _
        refine ⟨"", (addKeyToExpression pk kvp "" ExprMaps.empty).2, ?_, ?_, ?_⟩
        · rw [String.append_empty]
          rfl
        · exact nameMapGet_nameMapSet_self ..
        · exact objGet_objSet_self ..
    · rw [if_neg ht]
      refine ⟨⟨fun _ => hfalse ht, fun _ => ⟨pk.AttributeName, rfl⟩⟩, ?_⟩
      intro htt
      exact absurd htt ht

/-- Witness for the amended claim C7: a truthy scalar partition value
yields the partition equality clause with correctly bound placeholders. -/
theorem claim7_partition_clause_witness :
    ∃ rest m,
      buildKeyConditionExpression [⟨"p", "HASH"⟩] [("p", .str "a")]
          ExprMaps.empty
        = .ok ((("#" ++ "p") ++ " = " ++ (":" ++ "p")) ++ rest, m) ∧
      nameMapGet m.names ("#" ++ "p") = some "p" ∧
      objGet m.values (":" ++ "p") = objGet [("p", .str "a")] "p" :=
  (claim7_partition_clause [⟨"p", "HASH"⟩] [("p", .str "a")] ⟨"p", "HASH"⟩
    rfl).2 rfl

/-! ### Claim C3: list values, IN clauses and the key condition -/

theorem buildKeyPlaceholder_no_dot (k : String) (m : ExprMaps)
    (hdot : '.' ∉ k.data) :
    buildKeyPlaceholder k m
      = ("#" ++ k ++ "0", assignName m ("#" ++ k ++ "0") k) := by
  unfold buildKeyPlaceholder
  rw [keyParts_no_dot k hdot]
  rfl

theorem removeKeyAttrs_cons (o : JObj) (key : KeySchemaElement)
    (rest : List KeySchemaElement) :
    removeKeyAttrs o (key :: rest)
      = removeKeyAttrs (objDelete o key.AttributeName) rest := rfl

theorem removeKeyAttrs_nil_obj (ks : List KeySchemaElement) :
    removeKeyAttrs [] ks = [] := by
  induction ks with
  | nil => rfl
  | cons key rest ih =>
    rw [removeKeyAttrs_cons]
    exact ih

theorem removeKeyAttrs_single_not_mem (k : String) (v : JSVal)
    (ks : List KeySchemaElement)
    (h : ∀ key ∈ ks, key.AttributeName ≠ k) :
    removeKeyAttrs [(k, v)] ks = [(k, v)] := by
  induction ks with
  | nil => rfl
  | cons key rest ih =>
    have hk : k ≠ key.AttributeName :=
      Ne.symm (h key (List.mem_cons_self ..))
    rw [removeKeyAttrs_cons]
    have hdel : objDelete [(k, v)] key.AttributeName = [(k, v)] := by
      simp [objDelete, hk]
    rw [hdel]
    exact ih (fun x hx => h x (List.mem_cons_of_mem _ hx))

theorem removeKeyAttrs_single_mem (k : String) (v : JSVal)
    (ks : List KeySchemaElement)
    (h : ∃ key ∈ ks, key.AttributeName = k) :
    removeKeyAttrs [(k, v)] ks = [] := by
  induction ks with
  | nil =>
    rcases h with ⟨key, hk, _⟩
    cases hk
  | cons key rest ih =>
    rw [removeKeyAttrs_cons]
    by_cases hk : key.AttributeName = k
    · have hdel : objDelete [(k, v)] key.AttributeName = [] := by
        simp [objDelete, hk]
      rw [hdel, removeKeyAttrs_nil_obj]
    · have hdel : objDelete [(k, v)] key.AttributeName = [(k, v)] := by
        simp [objDelete, Ne.symm hk]
      rw [hdel]
      rcases h with ⟨key', hk', he⟩
      rcases List.mem_cons.mp hk' with rfl | hmem
      · exact absurd he hk
      · exact ih ⟨key', hmem, he⟩

theorem inValuesLoop_spec (k : String) (hdot : '.' ∉ k.data) :
    ∀ (vs : List JSVal) (i : Nat) (m : ExprMaps),
      (inValuesLoop k vs i m).1
        = (List.range' i vs.length).map (fun j => ":" ++ k ++ natToDecimal j) ∧
      (inValuesLoop k vs i m).2.valueLog
        = m.valueLog ++ ((List.range' i vs.length).zip vs).map
            (fun p => ((":" ++ k ++ natToDecimal p.1), p.2)) := by
  intro vs
  induction vs with
  | nil => intro i m; simp [inValuesLoop]
  | cons v rest ih =>
    intro i m
    have hsan : sanitizeDots (":" ++ k ++ natToDecimal i)
        = ":" ++ k ++ natToDecimal i :=
      sanitizeDots_no_dot _
        (no_dot_append _ _ (no_dot_append ":" k (by decide) hdot)
          (natToDecimal_no_dot i))
    obtain ⟨h1, h2⟩ := ih (i + 1)
      (assignValue m (sanitizeDots (":" ++ k ++ natToDecimal i)) v)
    rw [hsan] at h1 h2
    refine ⟨?_, ?_⟩
    · simp only [inValuesLoop, h1, hsan, List.length_cons, List.range'_succ,
        List.map_cons]
    · simp only [inValuesLoop, hsan]
      rw [h2]
      simp [assignValue, List.length_cons, List.range'_succ,
        List.zip_cons_cons, List.map_cons, List.append_assoc]

/-- Counterexample to claim C3: with schema `(p, s)` and filter set
`{p: "a", s: [1, 2]}`, the sort key's list value is truthy, so
`buildKeyConditionExpression` emits `#s = :s` with `:s` bound to the list —
a list value in a key-condition equality — while `buildFilterExpression`
deletes the entry as a key attribute and renders no `IN` clause at all. -/
theorem claim3_counterexample :
    (buildKeyConditionExpression [⟨"p", "HASH"⟩, ⟨"s", "RANGE"⟩]
        [("p", .str "a"), ("s", .arr [.num 1, .num 2])]
        ExprMaps.empty).toOption.map Prod.fst
      = some "#p = :p AND #s = :s" ∧
    (buildKeyConditionExpression [⟨"p", "HASH"⟩, ⟨"s", "RANGE"⟩]
        [("p", .str "a"), ("s", .arr [.num 1, .num 2])]
        ExprMaps.empty).toOption.map (fun r => objGet r.2.values ":s")
      = some (.arr [.num 1, .num 2]) ∧
    (buildFilterExpression [⟨"p", "HASH"⟩, ⟨"s", "RANGE"⟩]
        [("p", .str "a"), ("s", .arr [.num 1, .num 2])] none none
        ExprMaps.empty).1 = none :=
  ⟨rfl, rfl, rfl⟩

/-- Claim C3 as amended: an attribute bound to a list of scalars that is
NOT part of the selected schema is rendered in the filter expression as an
`IN` clause — the produced expression is exactly
`#k0 IN (:k0,:k1,...)` — with exactly one value placeholder per list
element, placeholder `:k<i>` bound to element `i`; an attribute of the
schema bound to a list is instead removed from the filter expression
entirely, and a truthy list bound to the schema's sort key IS used in the
key-condition equality (see the counterexample). -/
theorem claim3_in_clause_rendering (ks : List KeySchemaElement) (k : String)
    (vs : List JSVal) (hdot : '.' ∉ k.data) :
    ((∀ key ∈ ks, key.AttributeName ≠ k) →
      (buildFilterExpression ks [(k, .arr vs)] none none ExprMaps.empty).1
        = some (("#" ++ k ++ "0") ++ " IN ("
            ++ joinComma ((List.range vs.length).map
                (fun i => ":" ++ k ++ natToDecimal i)) ++ ")") ∧
      (buildFilterExpression ks [(k, .arr vs)] none none
          ExprMaps.empty).2.valueLog
        = ((List.range vs.length).zip vs).map
            (fun p => ((":" ++ k ++ natToDecimal p.1), p.2)) ∧
      (buildFilterExpression ks [(k, .arr vs)] none none
          ExprMaps.empty).2.valueLog.length = vs.length) ∧
    ((∃ key ∈ ks, key.AttributeName = k) →
      buildFilterExpression ks [(k, .arr vs)] none none ExprMaps.empty
        = (none, ExprMaps.empty)) := by
  constructor
  · intro hnot
    have hsearch : removeKeyAttrs [(k, .arr vs)] ks = [(k, .arr vs)] :=
      removeKeyAttrs_single_not_mem k _ ks hnot
    have hred : buildFilterExpression ks [(k, .arr vs)] none none
        ExprMaps.empty
        = (if (addInQueryToExpression k vs
              ⟨"", ExprMaps.empty⟩).expression.length > 0
           then some (addInQueryToExpression k vs
              ⟨"", ExprMaps.empty⟩).expression
           else none,
           (addInQueryToExpression k vs ⟨"", ExprMaps.empty⟩).maps) := by
      unfold buildFilterExpression
      rw [hsearch]
      rfl
    rw [hred]
    simp only [addInQueryToExpression, buildKeyPlaceholder_no_dot k _ hdot,
      String.empty_append]
    obtain ⟨h1, h2⟩ := inValuesLoop_spec k hdot vs 0
      (assignName ExprMaps.empty ("#" ++ k ++ "0") k)
    rw [h1, h2]
    refine ⟨?_, ?_, ?_⟩
    · have hlen : ∀ s : String, 0 < (s ++ ")").length := by
        intro s
        rw [String.length_append]
        have hone : (")" : String).length = 1 := rfl
        omega
      rw [if_pos (hlen _), List.range_eq_range']
    · simp only [assignName, ExprMaps.empty, List.nil_append,
        List.range_eq_range']
    · simp only [assignName, ExprMaps.empty, List.nil_append]
      simp [List.length_zip]
  · intro hmem
    have hsearch : removeKeyAttrs [(k, .arr vs)] ks = [] :=
      removeKeyAttrs_single_mem k _ ks hmem
    unfold buildFilterExpression
    rw [hsearch]
    rfl

/-- Witness for the amended claim C3 on a two-element list bound to a
non-key attribute: the rendered clause and the placeholder bindings. -/
theorem claim3_in_clause_rendering_witness :
    (buildFilterExpression [⟨"p", "HASH"⟩]
        [("tags", .arr [.str "a", .str "b"])] none none ExprMaps.empty).1
      = some (("#" ++ "tags" ++ "0") ++ " IN ("
          ++ joinComma
              ((List.range ([JSVal.str "a", JSVal.str "b"] : List JSVal).length).map
                (fun i => ":" ++ "tags" ++ natToDecimal i)) ++ ")") ∧
    (buildFilterExpression [⟨"p", "HASH"⟩]
        [("tags", .arr [.str "a", .str "b"])] none none
        ExprMaps.empty).2.valueLog
      = ((List.range ([JSVal.str "a", JSVal.str "b"] : List JSVal).length).zip
          [JSVal.str "a", JSVal.str "b"]).map
            (fun p => ((":" ++ "tags" ++ natToDecimal p.1), p.2)) ∧
    (buildFilterExpression [⟨"p", "HASH"⟩]
        [("tags", .arr [.str "a", .str "b"])] none none
        ExprMaps.empty).2.valueLog.length
      = ([JSVal.str "a", JSVal.str "b"] : List JSVal).length :=
  (claim3_in_clause_rendering [⟨"p", "HASH"⟩] "tags" [.str "a", .str "b"]
    (by decide)).1 (by decide)

/-! ### Claim C4: placeholder uniqueness -/

/-- The value placeholders contributed by one search-term entry with a
dot-free attribute path: one placeholder per element for a list (`IN`),
one placeholder for a scalar (equality). -/
def entryValuePlaceholders (k : String) (v : JSVal) : List String :=
  if isArray v then
    (List.range (arrValues v).length).map (fun i => ":" ++ k ++ natToDecimal i)
  else [":" ++ k]

/-- The value placeholders contributed by one range-query entry with a
dot-free attribute path. -/
def betweenValuePlaceholders (k : String) (low high : JSVal) : List String :=
  if truthy low = false then [":" ++ k ++ "1"]
  else if truthy high = false then [":" ++ k ++ "1"]
  else [":" ++ k ++ "1", ":" ++ k ++ "2"]

/-- A well-behaved attribute path for the uniqueness theorem: no `.`
(nested paths collide after the `.`→`_` rewrite) and not ending in a digit
(digit-suffixed placeholders of different keys collide otherwise). -/
def goodKey (k : String) : Bool :=
  decide ('.' ∉ k.data) && k.data.getLast?.all (fun c => !c.isDigit)

/-- Shape of every value placeholder generated for the dot-free attribute
path `k`: a colon, the path, and a (possibly empty) digit suffix. -/
def isValuePlaceholderOf (k p : String) : Prop :=
  ∃ ds, p.data = ':' :: (k.data ++ ds) ∧ ∀ c ∈ ds, c.isDigit = true

theorem goodKey_spec (k : String) (h : goodKey k = true) :
    '.' ∉ k.data ∧ ∀ c ∈ k.data.getLast?, c.isDigit = false := by
  unfold goodKey at h
  rw [Bool.and_eq_true] at h
  obtain ⟨h1, h2⟩ := h
  refine ⟨of_decide_eq_true h1, ?_⟩
  intro c hc
  cases hl : k.data.getLast? with
  | none =>
    rw [hl] at hc
    cases hc
  | some c' =>
    rw [hl] at hc
    have hcc : c' = c := by
      cases hc
      rfl
    rw [hl] at h2
    simp only [Option.all] at h2
    rw [← hcc]
    simpa using h2

theorem digits_prefix_split :
    ∀ (d e a b : List Char),
      (∀ c ∈ d, c.isDigit = true) → (∀ c ∈ e, c.isDigit = true) →
      (∀ c ∈ a.head?, c.isDigit = false) → (∀ c ∈ b.head?, c.isDigit = false) →
      d ++ a = e ++ b → d = e ∧ a = b := by
  intro d
  induction d with
  | nil =>
    intro e a b _ he ha _ h
    cases e with
    | nil => exact ⟨rfl, h⟩
    | cons c e' =>
      exfalso
      rw [List.nil_append, List.cons_append] at h
      have hc : c.isDigit = true := he c (List.mem_cons_self ..)
      have hhd : a.head? = some c := by rw [h]; rfl
      have hf := ha c (by rw [hhd]; rfl)
      rw [hc] at hf
      cases hf
  | cons c d' ih =>
    intro e a b hd he ha hb h
    cases e with
    | nil =>
      exfalso
      rw [List.nil_append, List.cons_append] at h
      have hc : c.isDigit = true := hd c (List.mem_cons_self ..)
      have hhd : b.head? = some c := by rw [← h]; rfl
      have hf := hb c (by rw [hhd]; rfl)
      rw [hc] at hf
      cases hf
    | cons c' e' =>
      rw [List.cons_append, List.cons_append] at h
      injection h with h1 h2
      obtain ⟨hde, hab⟩ := ih e' a b
        (fun x hx => hd x (List.mem_cons_of_mem _ hx))
        (fun x hx => he x (List.mem_cons_of_mem _ hx)) ha hb h2
      exact ⟨by rw [h1, hde], hab⟩

theorem digit_suffix_split (a b d e : List Char)
    (ha : ∀ c ∈ a.getLast?, c.isDigit = false)
    (hb : ∀ c ∈ b.getLast?, c.isDigit = false)
    (hd : ∀ c ∈ d, c.isDigit = true) (he : ∀ c ∈ e, c.isDigit = true)
    (h : a ++ d = b ++ e) : a = b ∧ d = e := by
  have hrev : d.reverse ++ a.reverse = e.reverse ++ b.reverse := by
    rw [← List.reverse_append, ← List.reverse_append, h]
  obtain ⟨hde, hab⟩ := digits_prefix_split d.reverse e.reverse a.reverse
    b.reverse
    (fun c hc => hd c (List.mem_reverse.mp hc))
    (fun c hc => he c (List.mem_reverse.mp hc))
    (by rw [List.head?_reverse]; exact ha)
    (by rw [List.head?_reverse]; exact hb)
    hrev
  exact ⟨List.reverse_injective hab, List.reverse_injective hde⟩

theorem valuePlaceholder_key_det (k1 k2 p : String)
    (h1 : isValuePlaceholderOf k1 p) (h2 : isValuePlaceholderOf k2 p)
    (g1 : goodKey k1 = true) (g2 : goodKey k2 = true) : k1 = k2 := by
  obtain ⟨d1, hp1, hd1⟩ := h1
  obtain ⟨d2, hp2, hd2⟩ := h2
  rw [hp1] at hp2
  injection hp2 with hhead htail
  obtain ⟨hk, _⟩ := digit_suffix_split k1.data k2.data d1 d2
    (goodKey_spec k1 g1).2 (goodKey_spec k2 g2).2 hd1 hd2 htail
  exact String.ext hk

theorem data_colon_append (k : String) : (":" ++ k).data = ':' :: k.data := by
  rw [String.data_append]
  rfl

theorem shape_entryValuePlaceholders (k : String) (v : JSVal) (p : String)
    (hp : p ∈ entryValuePlaceholders k v) : isValuePlaceholderOf k p := by
  unfold entryValuePlaceholders at hp
  split at hp
  · simp only [List.mem_map] at hp
    obtain ⟨i, _, hpi⟩ := hp
    refine ⟨(natToDecimal i).data, ?_, natToDecimal_isDigit i⟩
    rw [← hpi, String.data_append, data_colon_append, List.cons_append]
  · have he : p = ":" ++ k := by simpa using hp
    refine ⟨[], ?_, by intro c hc; cases hc⟩
    rw [he, data_colon_append, List.append_nil]

theorem shape_scalarPlaceholder (k : String) :
    isValuePlaceholderOf k (":" ++ k) := by
  refine ⟨[], ?_, by intro c hc; cases hc⟩
  rw [data_colon_append, List.append_nil]

theorem shape_betweenValuePlaceholders (k : String) (low high : JSVal)
    (p : String) (hp : p ∈ betweenValuePlaceholders k low high) :
    isValuePlaceholderOf k p := by
  have hone : p = (":" ++ k) ++ "1" → isValuePlaceholderOf k p := by
    intro he
    refine ⟨['1'], ?_, by intro c hc; cases hc with
      | head => rfl
      | tail _ hc => cases hc⟩
    rw [he, String.data_append, data_colon_append, List.cons_append]
  have htwo : p = (":" ++ k) ++ "2" → isValuePlaceholderOf k p := by
    intro he
    refine ⟨['2'], ?_, by intro c hc; cases hc with
      | head => rfl
      | tail _ hc => cases hc⟩
    rw [he, String.data_append, data_colon_append, List.cons_append]
  unfold betweenValuePlaceholders at hp
  split at hp
  · exact hone (by simpa using hp)
  · split at hp
    · exact hone (by simpa using hp)
    · rcases List.mem_cons.mp hp with he | hp'
      · exact hone he
      · exact htwo (by simpa using hp')

theorem nodup_entryValuePlaceholders (k : String) (v : JSVal) :
    (entryValuePlaceholders k v).Nodup := by
  have hinj : Function.Injective (fun i => ":" ++ k ++ natToDecimal i) := by
    intro i j h
    exact natToDecimal_inj i j (string_append_left_cancel (":" ++ k) _ _ h)
  unfold entryValuePlaceholders
  split
  · exact (List.nodup_range _).map hinj
  · simp

theorem nodup_betweenValuePlaceholders (k : String) (low high : JSVal) :
    (betweenValuePlaceholders k low high).Nodup := by
  unfold betweenValuePlaceholders
  split
  · simp
  · split
    · simp
    · refine List.nodup_cons.mpr ⟨?_, List.nodup_singleton _⟩
      intro hmem
      have he : (":" ++ k) ++ "1" = (":" ++ k) ++ "2" := by simpa using hmem
      have := string_append_left_cancel (":" ++ k) "1" "2" he
      exact absurd this (by decide)

theorem andSeparator_maps (st : BuildState) :
    (andSeparator st).maps = st.maps := by
  unfold andSeparator
  split <;> rfl

theorem inValuesLoop_nameLog (k : String) :
    ∀ (vs : List JSVal) (i : Nat) (m : ExprMaps),
      (inValuesLoop k vs i m).2.nameLog = m.nameLog := by
  intro vs
  induction vs with
  | nil => intro i m; rfl
  | cons v rest ih =>
    intro i m
    simp only [inValuesLoop]
    rw [ih]
    rfl

theorem addSearchTerm_logKeys (k : String) (v : JSVal) (st : BuildState)
    (hdot : '.' ∉ k.data) :
    (addSearchTermToExpression k v st).maps.valueLog.map Prod.fst
      = st.maps.valueLog.map Prod.fst ++ [":" ++ k] ∧
    (addSearchTermToExpression k v st).maps.nameLog.map Prod.fst
      = st.maps.nameLog.map Prod.fst ++ ["#" ++ k ++ "0"] := by
  simp only [addSearchTermToExpression,
    sanitizeDots_no_dot _ (no_dot_append ":" k (by decide) hdot),
    buildKeyPlaceholder_no_dot k _ hdot]
  simp [assignValue, assignName]

theorem addInQuery_logKeys (k : String) (vs : List JSVal) (st : BuildState)
    (hdot : '.' ∉ k.data) :
    (addInQueryToExpression k vs st).maps.valueLog.map Prod.fst
      = st.maps.valueLog.map Prod.fst
        ++ (List.range vs.length).map (fun i => ":" ++ k ++ natToDecimal i) ∧
    (addInQueryToExpression k vs st).maps.nameLog.map Prod.fst
      = st.maps.nameLog.map Prod.fst ++ ["#" ++ k ++ "0"] := by
  have hred : (addInQueryToExpression k vs st).maps
      = (inValuesLoop k vs 0 (assignName st.maps ("#" ++ k ++ "0") k)).2 := by
    unfold addInQueryToExpression
    rw [buildKeyPlaceholder_no_dot k _ hdot]
  obtain ⟨h1, h2⟩ := inValuesLoop_spec k hdot vs 0
    (assignName st.maps ("#" ++ k ++ "0") k)
  have hname := inValuesLoop_nameLog k vs 0
    (assignName st.maps ("#" ++ k ++ "0") k)
  constructor
  · rw [hred, h2, List.map_append]
    have hval : (assignName st.maps ("#" ++ k ++ "0") k).valueLog
        = st.maps.valueLog := rfl
    rw [hval, List.map_map]
    congr 1
    have hzip : ((List.range' 0 vs.length).zip vs).map
          (fun p => (":" ++ k ++ natToDecimal (p : Nat × JSVal).1))
        = (List.range' 0 vs.length).map
            (fun i => ":" ++ k ++ natToDecimal i) := by
      have hcomp : (fun p => (":" ++ k ++ natToDecimal (p : Nat × JSVal).1))
          = (fun i => ":" ++ k ++ natToDecimal i) ∘ Prod.fst := rfl
      rw [hcomp, ← List.map_map,
        List.map_fst_zip _ _ (by simp [List.length_range'])]
    calc ((List.range' 0 vs.length).zip vs).map
          (Prod.fst ∘ fun p => ((":" ++ k ++ natToDecimal (p : Nat × JSVal).1), p.2))
        = ((List.range' 0 vs.length).zip vs).map
            (fun p => (":" ++ k ++ natToDecimal p.1)) := rfl
      _ = (List.range' 0 vs.length).map
            (fun i => ":" ++ k ++ natToDecimal i) := hzip
      _ = (List.range vs.length).map
            (fun i => ":" ++ k ++ natToDecimal i) := by
          rw [List.range_eq_range']
  · rw [hred, hname]
    simp [assignName]

theorem addContains_logKeys (k : String) (v : JSVal) (st : BuildState)
    (hdot : '.' ∉ k.data) :
    (addContainsQueryToExpression k v st).maps.valueLog.map Prod.fst
      = st.maps.valueLog.map Prod.fst ++ [":" ++ k] ∧
    (addContainsQueryToExpression k v st).maps.nameLog.map Prod.fst
      = st.maps.nameLog.map Prod.fst ++ ["#" ++ k ++ "0"] := by
  simp only [addContainsQueryToExpression,
    sanitizeDots_no_dot _ (no_dot_append ":" k (by decide) hdot),
    buildKeyPlaceholder_no_dot k _ hdot]
  simp [assignValue, assignName]

theorem addBetween_logKeys (k : String) (low high : JSVal) (st : BuildState)
    (hdot : '.' ∉ k.data) :
    (addBetweenQueryToExpression k low high st).maps.valueLog.map Prod.fst
      = st.maps.valueLog.map Prod.fst
        ++ betweenValuePlaceholders k low high ∧
    (addBetweenQueryToExpression k low high st).maps.nameLog.map Prod.fst
      = st.maps.nameLog.map Prod.fst ++ ["#" ++ k ++ "0"] := by
  rw [addBetween_eval k low high st hdot]
  unfold betweenValuePlaceholders
  by_cases hlow : truthy low = false
  · rw [if_pos hlow, if_pos hlow]
    simp [assignValue, assignName]
  · rw [if_neg hlow, if_neg hlow]
    by_cases hhigh : truthy high = false
    · rw [if_pos hhigh, if_pos hhigh]
      simp [assignValue, assignName]
    · rw [if_neg hhigh, if_neg hhigh]
      simp [assignValue, assignName]

theorem searchTermsLoop_logKeys (entries : List (String × JSVal))
    (hdot : ∀ e ∈ entries, '.' ∉ (e : String × JSVal).1.data) :
    ∀ st : BuildState,
      (searchTermsLoop entries st).maps.valueLog.map Prod.fst
        = st.maps.valueLog.map Prod.fst
          ++ entries.flatMap (fun e => entryValuePlaceholders e.1 e.2) ∧
      (searchTermsLoop entries st).maps.nameLog.map Prod.fst
        = st.maps.nameLog.map Prod.fst
          ++ entries.map (fun e => "#" ++ e.1 ++ "0") := by
  induction entries with
  | nil => intro st; simp [searchTermsLoop]
  | cons e rest ih =>
    intro st
    obtain ⟨k, v⟩ := e
    have hk : '.' ∉ k.data := hdot (k, v) (List.mem_cons_self ..)
    have hrest := fun x hx => hdot x (List.mem_cons_of_mem _ hx)
    have hstep : searchTermsLoop ((k, v) :: rest) st
        = searchTermsLoop rest
            (if isArray v
             then addInQueryToExpression k (arrValues v) (andSeparator st)
             else addSearchTermToExpression k v (andSeparator st)) := rfl
    by_cases hv : isArray v = true
    · rw [hstep, if_pos hv]
      obtain ⟨he1, he2⟩ := addInQuery_logKeys k (arrValues v)
        (andSeparator st) hk
      obtain ⟨ih1, ih2⟩ := ih hrest
        (addInQueryToExpression k (arrValues v) (andSeparator st))
      constructor
      · rw [ih1, he1, andSeparator_maps]
        simp [List.append_assoc, entryValuePlaceholders, hv]
      · rw [ih2, he2, andSeparator_maps]
        simp [List.append_assoc]
    · rw [hstep, if_neg hv]
      obtain ⟨he1, he2⟩ := addSearchTerm_logKeys k v (andSeparator st) hk
      obtain ⟨ih1, ih2⟩ := ih hrest
        (addSearchTermToExpression k v (andSeparator st))
      constructor
      · rw [ih1, he1, andSeparator_maps]
        simp [List.append_assoc, entryValuePlaceholders, hv]
      · rw [ih2, he2, andSeparator_maps]
        simp [List.append_assoc]

theorem containsQueryLoop_logKeys (entries : List (String × JSVal))
    (hdot : ∀ e ∈ entries, '.' ∉ (e : String × JSVal).1.data) :
    ∀ st : BuildState,
      (containsQueryLoop entries st).maps.valueLog.map Prod.fst
        = st.maps.valueLog.map Prod.fst
          ++ entries.map (fun e => ":" ++ e.1) ∧
      (containsQueryLoop entries st).maps.nameLog.map Prod.fst
        = st.maps.nameLog.map Prod.fst
          ++ entries.map (fun e => "#" ++ e.1 ++ "0") := by
  induction entries with
  | nil => intro st; simp [containsQueryLoop]
  | cons e rest ih =>
    intro st
    obtain ⟨k, v⟩ := e
    have hk : '.' ∉ k.data := hdot (k, v) (List.mem_cons_self ..)
    have hrest := fun x hx => hdot x (List.mem_cons_of_mem _ hx)
    obtain ⟨he1, he2⟩ := addContains_logKeys k v (andSeparator st) hk
    obtain ⟨ih1, ih2⟩ := ih hrest
      (addContainsQueryToExpression k v (andSeparator st))
    constructor
    · rw [show containsQueryLoop ((k, v) :: rest) st
          = containsQueryLoop rest
              (addContainsQueryToExpression k v (andSeparator st)) from rfl,
        ih1, he1, andSeparator_maps]
      simp [List.append_assoc]
    · rw [show containsQueryLoop ((k, v) :: rest) st
          = containsQueryLoop rest
              (addContainsQueryToExpression k v (andSeparator st)) from rfl,
        ih2, he2, andSeparator_maps]
      simp [List.append_assoc]

theorem betweenQueryLoop_logKeys (entries : List (String × JSVal × JSVal))
    (hdot : ∀ e ∈ entries, '.' ∉ (e : String × JSVal × JSVal).1.data) :
    ∀ st : BuildState,
      (betweenQueryLoop entries st).maps.valueLog.map Prod.fst
        = st.maps.valueLog.map Prod.fst
          ++ entries.flatMap
              (fun e => betweenValuePlaceholders e.1 e.2.1 e.2.2) ∧
      (betweenQueryLoop entries st).maps.nameLog.map Prod.fst
        = st.maps.nameLog.map Prod.fst
          ++ entries.map (fun e => "#" ++ e.1 ++ "0") := by
  induction entries with
  | nil => intro st; simp [betweenQueryLoop]
  | cons e rest ih =>
    intro st
    obtain ⟨k, low, high⟩ := e
    have hk : '.' ∉ k.data := hdot (k, low, high) (List.mem_cons_self ..)
    have hrest := fun x hx => hdot x (List.mem_cons_of_mem _ hx)
    obtain ⟨he1, he2⟩ := addBetween_logKeys k low high (andSeparator st) hk
    obtain ⟨ih1, ih2⟩ := ih hrest
      (addBetweenQueryToExpression k low high (andSeparator st))
    constructor
    · rw [show betweenQueryLoop ((k, low, high) :: rest) st
          = betweenQueryLoop rest
              (addBetweenQueryToExpression k low high (andSeparator st))
          from rfl,
        ih1, he1, andSeparator_maps]
      simp [List.append_assoc]
    · rw [show betweenQueryLoop ((k, low, high) :: rest) st
          = betweenQueryLoop rest
              (addBetweenQueryToExpression k low high (andSeparator st))
          from rfl,
        ih2, he2, andSeparator_maps]
      simp [List.append_assoc]

theorem flatMap_map_eq {α β γ : Type} (l : List α) (f : α → β)
    (g : β → List γ) :
    (l.map f).flatMap g = l.flatMap (fun x => g (f x)) := by
  induction l with
  | nil => rfl
  | cons x xs ih => simp [ih]

theorem buildFilterExpression_logKeys (ks : List KeySchemaElement)
    (kvp : JObj) (cq : List (String × JSVal))
    (bq : List (String × JSVal × JSVal))
    (hdot : ∀ k ∈ (removeKeyAttrs kvp ks).map Prod.fst
        ++ cq.map Prod.fst ++ bq.map Prod.fst, '.' ∉ k.data) :
    (buildFilterExpression ks kvp (some cq) (some bq)
        ExprMaps.empty).2.valueLog.map Prod.fst
      = (removeKeyAttrs kvp ks).flatMap
          (fun e => entryValuePlaceholders e.1 e.2)
        ++ cq.map (fun e => ":" ++ e.1)
        ++ bq.flatMap (fun e => betweenValuePlaceholders e.1 e.2.1 e.2.2) ∧
    (buildFilterExpression ks kvp (some cq) (some bq)
        ExprMaps.empty).2.nameLog.map Prod.fst
      = ((removeKeyAttrs kvp ks).map Prod.fst ++ cq.map Prod.fst
          ++ bq.map Prod.fst).map (fun k => "#" ++ k ++ "0") := by
  have hd1 : ∀ e ∈ removeKeyAttrs kvp ks, '.' ∉ (e : String × JSVal).1.data :=
    fun e he => hdot e.1 (List.mem_append_left _
      (List.mem_append_left _ (List.mem_map_of_mem Prod.fst he)))
  have hd2 : ∀ e ∈ cq, '.' ∉ (e : String × JSVal).1.data :=
    fun e he => hdot e.1 (List.mem_append_left _
      (List.mem_append_right _ (List.mem_map_of_mem Prod.fst he)))
  have hd3 : ∀ e ∈ bq, '.' ∉ (e : String × JSVal × JSVal).1.data :=
    fun e he => hdot e.1
      (List.mem_append_right _ (List.mem_map_of_mem Prod.fst he))
  have hred : (buildFilterExpression ks kvp (some cq) (some bq)
      ExprMaps.empty).2
      = (betweenQueryLoop bq (containsQueryLoop cq
          (searchTermsLoop (removeKeyAttrs kvp ks)
            ⟨"", ExprMaps.empty⟩))).maps := rfl
  obtain ⟨hs1, hs2⟩ := searchTermsLoop_logKeys _ hd1 ⟨"", ExprMaps.empty⟩
  obtain ⟨hc1, hc2⟩ := containsQueryLoop_logKeys cq hd2
    (searchTermsLoop (removeKeyAttrs kvp ks) ⟨"", ExprMaps.empty⟩)
  obtain ⟨hb1, hb2⟩ := betweenQueryLoop_logKeys bq hd3
    (containsQueryLoop cq
      (searchTermsLoop (removeKeyAttrs kvp ks) ⟨"", ExprMaps.empty⟩))
  constructor
  · rw [hred, hb1, hc1, hs1]
    simp [ExprMaps.empty, List.append_assoc]
  · rw [hred, hb2, hc2, hs2]
    simp [ExprMaps.empty, List.append_assoc, List.map_append, List.map_map]
    rfl

/-- The value placeholders of one expression-build call, grouped by the
attribute path that produced them. -/
def valueGroups (searchTerms : List (String × JSVal))
    (cq : List (String × JSVal)) (bq : List (String × JSVal × JSVal)) :
    List (String × List String) :=
  searchTerms.map (fun e => (e.1, entryValuePlaceholders e.1 e.2))
    ++ cq.map (fun e => (e.1, [":" ++ e.1]))
    ++ bq.map (fun e => (e.1, betweenValuePlaceholders e.1 e.2.1 e.2.2))

theorem valueGroups_flatMap (A : List (String × JSVal))
    (cq : List (String × JSVal)) (bq : List (String × JSVal × JSVal)) :
    (valueGroups A cq bq).flatMap Prod.snd
      = A.flatMap (fun e => entryValuePlaceholders e.1 e.2)
        ++ cq.map (fun e => ":" ++ e.1)
        ++ bq.flatMap
            (fun e => betweenValuePlaceholders e.1 e.2.1 e.2.2) := by
  unfold valueGroups
  rw [List.flatMap_append, List.flatMap_append, flatMap_map_eq,
    flatMap_map_eq, flatMap_map_eq]
  congr 1
  congr 1
  induction cq with
  | nil => rfl
  | cons e rest ih => simp [ih]

theorem valueGroups_keys (A : List (String × JSVal))
    (cq : List (String × JSVal)) (bq : List (String × JSVal × JSVal)) :
    (valueGroups A cq bq).map Prod.fst
      = A.map Prod.fst ++ cq.map Prod.fst ++ bq.map Prod.fst := by
  unfold valueGroups
  simp [List.map_map]
  rfl

theorem nodup_grouped (groups : List (String × List String))
    (hkeys : (groups.map Prod.fst).Nodup)
    (hgood : ∀ g ∈ groups, goodKey (g : String × List String).1 = true)
    (hshape : ∀ g ∈ groups, ∀ p ∈ (g : String × List String).2,
      isValuePlaceholderOf g.1 p)
    (hin : ∀ g ∈ groups, (g : String × List String).2.Nodup) :
    (groups.flatMap Prod.snd).Nodup := by
  rw [List.nodup_flatMap]
  refine ⟨hin, ?_⟩
  have hp : groups.Pairwise (fun a b => a.1 ≠ b.1) := by
    rw [List.Nodup, List.pairwise_map] at hkeys
    exact hkeys
  refine List.Pairwise.imp_of_mem ?_ hp
  intro a b ha hb hne
  intro p hpa hpb
  exact hne (valuePlaceholder_key_det a.1 b.1 p
    (hshape a ha p hpa) (hshape b hb p hpb) (hgood a ha) (hgood b hb))

/-- Counterexample to claim C4: the filter set `{"a.b": "x", "a_b": "y"}`
together with the contains query `{"a_b": "z"}` binds the name placeholder
`#a_b0` to the two different segments `a` and `a_b` (the nested path's
segments collide with the plain path after the `.`→`_` rewrite), and binds
the value placeholder `:a_b` to the three different values `"x"`, `"y"`
and `"z"` — the full assignment logs of the one build call show every
collision. -/
theorem claim4_counterexample :
    (buildFilterExpression [] [("a.b", .str "x"), ("a_b", .str "y")]
        (some [("a_b", .str "z")]) none ExprMaps.empty).2.nameLog
      = [("#a_b0", "a"), ("#a_b1", "b"), ("#a_b0", "a_b"),
         ("#a_b0", "a_b")] ∧
    (buildFilterExpression [] [("a.b", .str "x"), ("a_b", .str "y")]
        (some [("a_b", .str "z")]) none ExprMaps.empty).2.valueLog
      = [(":a_b", .str "x"), (":a_b", .str "y"), (":a_b", .str "z")] :=
  ⟨rfl, rfl⟩

/-- Claim C4 as amended: within one expression-build call, every generated
placeholder key is unique — no name placeholder is assigned twice and no
value placeholder is assigned twice — provided the attribute paths in use
(the residual filter set after key removal, the contains query and the
range query) are pairwise distinct, contain no `.`, and do not end in a
digit.  Without these provisos placeholders collide, as the counterexample
shows. -/
theorem claim4_placeholder_uniqueness (ks : List KeySchemaElement)
    (kvp : JObj) (cq : List (String × JSVal))
    (bq : List (String × JSVal × JSVal))
    (hgood : ((removeKeyAttrs kvp ks).map Prod.fst ++ cq.map Prod.fst
        ++ bq.map Prod.fst).all goodKey = true)
    (hnodup : ((removeKeyAttrs kvp ks).map Prod.fst ++ cq.map Prod.fst
        ++ bq.map Prod.fst).Nodup) :
    ((buildFilterExpression ks kvp (some cq) (some bq)
        ExprMaps.empty).2.nameLog.map Prod.fst).Nodup ∧
    ((buildFilterExpression ks kvp (some cq) (some bq)
        ExprMaps.empty).2.valueLog.map Prod.fst).Nodup := by
  have hgood' : ∀ k ∈ (removeKeyAttrs kvp ks).map Prod.fst
      ++ cq.map Prod.fst ++ bq.map Prod.fst, goodKey k = true :=
    fun k hk => List.all_eq_true.mp hgood k hk
  have hdot : ∀ k ∈ (removeKeyAttrs kvp ks).map Prod.fst
      ++ cq.map Prod.fst ++ bq.map Prod.fst, '.' ∉ k.data :=
    fun k hk => (goodKey_spec k (hgood' k hk)).1
  obtain ⟨hv, hn⟩ := buildFilterExpression_logKeys ks kvp cq bq hdot
  constructor
  · rw [hn]
    refine hnodup.map ?_
    intro a b h
    exact string_append_left_cancel "#" a b
      (string_append_right_cancel ("#" ++ a) ("#" ++ b) "0" h)
  · rw [hv, ← valueGroups_flatMap]
    refine nodup_grouped _ ?_ ?_ ?_ ?_
    · rw [valueGroups_keys]
      exact hnodup
    · intro g hg
      unfold valueGroups at hg
      rcases List.mem_append.mp hg with hg' | hg3
      · rcases List.mem_append.mp hg' with hg1 | hg2
        · obtain ⟨e, he, hge⟩ := List.mem_map.mp hg1
          rw [← hge]
          exact hgood' e.1 (List.mem_append_left _ (List.mem_append_left _
            (List.mem_map_of_mem Prod.fst he)))
        · obtain ⟨e, he, hge⟩ := List.mem_map.mp hg2
          rw [← hge]
          exact hgood' e.1 (List.mem_append_left _ (List.mem_append_right _
            (List.mem_map_of_mem Prod.fst he)))
      · obtain ⟨e, he, hge⟩ := List.mem_map.mp hg3
        rw [← hge]
        exact hgood' e.1 (List.mem_append_right _
          (List.mem_map_of_mem Prod.fst he))
    · intro g hg p hp
      unfold valueGroups at hg
      rcases List.mem_append.mp hg with hg' | hg3
      · rcases List.mem_append.mp hg' with hg1 | hg2
        · obtain ⟨e, _, hge⟩ := List.mem_map.mp hg1
          rw [← hge] at hp ⊢
          exact shape_entryValuePlaceholders e.1 e.2 p hp
        · obtain ⟨e, _, hge⟩ := List.mem_map.mp hg2
          rw [← hge] at hp ⊢
          have he : p = ":" ++ e.1 := by simpa using hp
          rw [he]
          exact shape_scalarPlaceholder e.1
      · obtain ⟨e, _, hge⟩ := List.mem_map.mp hg3
        rw [← hge] at hp ⊢
        exact shape_betweenValuePlaceholders e.1 e.2.1 e.2.2 p hp
    · intro g hg
      unfold valueGroups at hg
      rcases List.mem_append.mp hg with hg' | hg3
      · rcases List.mem_append.mp hg' with hg1 | hg2
        · obtain ⟨e, _, hge⟩ := List.mem_map.mp hg1
          rw [← hge]
          exact nodup_entryValuePlaceholders e.1 e.2
        · obtain ⟨e, _, hge⟩ := List.mem_map.mp hg2
          rw [← hge]
          exact List.nodup_singleton _
      · obtain ⟨e, _, hge⟩ := List.mem_map.mp hg3
        rw [← hge]
        exact nodup_betweenValuePlaceholders e.1 e.2.1 e.2.2

/-- Witness for the amended claim C4 on a build call with an `IN` list, a
scalar equality, a contains clause and a range clause. -/
theorem claim4_placeholder_uniqueness_witness :
    ((buildFilterExpression []
        [("alpha", .arr [.num 1, .num 2]), ("beta", .str "y")]
        (some [("gamma", .str "z")]) (some [("delta", .num 1, .num 2)])
        ExprMaps.empty).2.nameLog.map Prod.fst).Nodup ∧
    ((buildFilterExpression []
        [("alpha", .arr [.num 1, .num 2]), ("beta", .str "y")]
        (some [("gamma", .str "z")]) (some [("delta", .num 1, .num 2)])
        ExprMaps.empty).2.valueLog.map Prod.fst).Nodup :=
  claim4_placeholder_uniqueness [] _ _ _ (by decide) (by decide)

end DynamoNode
